import Mathlib

/-!
Verification of the CP/M disk image core (`cpm_disk.py`).

The disk image is modelled as a function `Nat → Nat` giving the byte stored at
each offset.  All operations of the core (`create_disk`, `find_free_blocks`,
`find_free_dir_entry`, `add_file`, `extract_file`) are translated directly from
the source.  Slice assignments `disk[a:b] = chunk` are modelled by
`writeRange`; the written chunks always have exactly the length of the slice
(proved below), so `writeRange` takes that length explicitly.
-/

set_option maxRecDepth 8000

namespace CpmDisk

/-- A disk image: the byte stored at each offset. -/
abbrev Disk := Nat → Nat

def DISK_SIZE : Nat := 256 * 1024
def SECTOR_SIZE : Nat := 128
def SECTORS_PER_TRACK : Nat := 26
def TRACKS : Nat := 77
def RESERVED_TRACKS : Nat := 2
def BLOCK_SIZE : Nat := 1024
def DIR_ENTRIES : Nat := 64
def ENTRY_SIZE : Nat := 32

def DIR_OFFSET : Nat := RESERVED_TRACKS * SECTORS_PER_TRACK * SECTOR_SIZE
def DATA_OFFSET : Nat := DIR_OFFSET + DIR_ENTRIES * ENTRY_SIZE
def TOTAL_BLOCKS : Nat := (DISK_SIZE - DATA_OFFSET) / BLOCK_SIZE

def EMPTY_ENTRY : Nat := 0xE5

/-- Assignment `disk[addr] = v` for a single byte. -/
def setByte (d : Disk) (addr v : Nat) : Disk := fun a => if a = addr then v else d a

/-- The operation `create_disk`: zero-filled image with every directory slot marked empty. -/
def create_disk : Disk :=
  (List.range DIR_ENTRIES).foldl
    (fun d i => setByte d (DIR_OFFSET + i * ENTRY_SIZE) EMPTY_ENTRY) (fun _ => 0)

/-- The slice `disk[start:start+len]` as a list of bytes. -/
def readBytes (d : Disk) (start len : Nat) : List Nat :=
  (List.range len).map (fun j => d (start + j))

/-- Slice assignment `disk[start:start+len] = bs` (the chunks written always have length `len`). -/
def writeRange (d : Disk) (start len : Nat) (bs : List Nat) : Disk :=
  fun a => if start ≤ a ∧ a < start + len then bs.getD (a - start) 0 else d a

/-- Byte offset of directory slot `i`. -/
def slotOff (i : Nat) : Nat := DIR_OFFSET + i * ENTRY_SIZE

/-- The 32-byte directory entry in slot `i`. -/
def dirEntry (d : Disk) (i : Nat) : List Nat := readBytes d (slotOff i) ENTRY_SIZE

/-- The test `entry[0] != EMPTY_ENTRY and entry[0] <= 15`. -/
def isOccupied (entry : List Nat) : Bool :=
  decide (entry.getD 0 0 ≠ EMPTY_ENTRY) && decide (entry.getD 0 0 ≤ 15)

/-- The list `[entry[16+b] for b in range(16) if entry[16+b] > 0]`. -/
def entryBlocks (entry : List Nat) : List Nat :=
  (List.range 16).filterMap (fun b =>
    if 0 < entry.getD (16 + b) 0 then some (entry.getD (16 + b) 0) else none)

/-- The blocks contributed by slot `i` to the used set. -/
def slotBlocks (d : Disk) (i : Nat) : List Nat :=
  if isOccupied (dirEntry d i) then entryBlocks (dirEntry d i) else []

/-- All block numbers referenced by occupied directory entries, in scan order. -/
def usedBlocksList (d : Disk) : List Nat :=
  (List.range DIR_ENTRIES).flatMap (fun i => slotBlocks d i)

/-- The free-block collection loop of `find_free_blocks`: append each candidate
not in `used`, stopping as soon as `count` have been collected. -/
def collectFree (used : List Nat) (count : Nat) : List Nat → List Nat → List Nat
  | [], acc => acc
  | b :: rest, acc =>
    if b ∈ used then collectFree used count rest acc
    else if count ≤ (acc ++ [b]).length then acc ++ [b]
    else collectFree used count rest (acc ++ [b])

/-- The operation `find_free_blocks`. -/
def find_free_blocks (d : Disk) (count : Nat) : List Nat :=
  collectFree (usedBlocksList d) count (List.range' 2 (TOTAL_BLOCKS - 2)) []

/-- The operation `find_free_dir_entry`. -/
def find_free_dir_entry (d : Disk) : Option Nat :=
  (List.range DIR_ENTRIES).find? (fun i => decide (d (slotOff i) = EMPTY_ENTRY))

/-- Padding `s[:n].ljust(n)` on byte strings (0x20 is the space character). -/
def padTo (s : List Nat) (n : Nat) : List Nat :=
  s.take n ++ List.replicate (n - (s.take n).length) 0x20

/-- The offset `DATA_OFFSET + (block - 2) * BLOCK_SIZE`. -/
def blockOffset (b : Nat) : Nat := DATA_OFFSET + (b - 2) * BLOCK_SIZE

/-- The chunk `data[i*BLOCK_SIZE : min((i+1)*BLOCK_SIZE, len(data))]`, padded with 0x1A
up to `BLOCK_SIZE`. -/
def chunkAt (data : List Nat) (i : Nat) : List Nat :=
  ((data.drop (i * BLOCK_SIZE)).take BLOCK_SIZE) ++
    List.replicate (BLOCK_SIZE - ((data.drop (i * BLOCK_SIZE)).take BLOCK_SIZE).length) 0x1A

/-- The data-writing loop `for i, block in enumerate(free_blocks)`. -/
def writeDataBlocksAux (data : List Nat) : Disk → List Nat → Nat → Disk
  | d, [], _ => d
  | d, b :: rest, i =>
    writeDataBlocksAux data (writeRange d (blockOffset b) BLOCK_SIZE (chunkAt data i)) rest (i + 1)

/-- One 32-byte directory entry as built by `add_file`. -/
def mkEntry (nm ex : List Nat) (extent recs : Nat) (blks : List Nat) : List Nat :=
  [0] ++ nm ++ ex ++ [extent &&& 0x1F, 0, (extent >>> 5) &&& 0x3F, recs] ++
    (blks ++ List.replicate (16 - blks.length) 0)

inductive AddOutcome
  | ok
  | insufficientSpace
  | directoryFull
deriving DecidableEq

/-- Number of 16-block extent groups covering `n` blocks; the number of
iterations of the `while block_idx < len(free_blocks)` loop. -/
def groupCount (n : Nat) : Nat := (n + 15) / 16

/-- The directory-entry writing loop of `add_file` (`while block_idx < len(free_blocks)`),
recursing on the blocks not yet covered by an extent.  The first argument counts
the remaining loop iterations (`groupCount` of the remaining block count, so it
reaches 0 exactly when the remaining block list empties); both exit conditions
coincide with the loop condition.  Returns the outcome and the in-memory image
at return time. -/
def writeExtentsAux (nm ex : List Nat) (records : Nat) :
    Nat → Disk → List Nat → Nat → AddOutcome × Disk
  | 0, d, _, _ => (AddOutcome.ok, d)
  | _ + 1, d, [], _ => (AddOutcome.ok, d)
  | g + 1, d, b :: rest, extent =>
    match find_free_dir_entry d with
    | none => (AddOutcome.directoryFull, d)
    | some dirIdx =>
      writeExtentsAux nm ex records g
        (writeRange d (slotOff dirIdx) ENTRY_SIZE
          (mkEntry nm ex extent (min (records - extent * 128) 128) ((b :: rest).take 16)))
        (rest.drop 15) (extent + 1)

/-- The operation `add_file` on the in-memory buffer: returns the outcome together with the
buffer contents at the point the function returns. -/
def add_file_run (disk : Disk) (name0 ext0 data : List Nat) : AddOutcome × Disk :=
  let nm := padTo name0 8
  let ex := padTo ext0 3
  let records := (data.length + SECTOR_SIZE - 1) / SECTOR_SIZE
  let blocksNeeded := (data.length + BLOCK_SIZE - 1) / BLOCK_SIZE
  let freeBlocks := find_free_blocks disk blocksNeeded
  if freeBlocks.length < blocksNeeded then (AddOutcome.insufficientSpace, disk)
  else writeExtentsAux nm ex records (groupCount freeBlocks.length)
    (writeDataBlocksAux data disk freeBlocks 0) freeBlocks 0

/-- The operation `add_file` as seen on stable storage: the image file is overwritten only
when every step succeeded (`return False` paths never reach the final write). -/
def add_file (disk : Disk) (name0 ext0 data : List Nat) : Option Disk :=
  match add_file_run disk name0 ext0 data with
  | (AddOutcome.ok, d) => some d
  | _ => none

/-- The decoded extent number `entry[12] + (entry[14] << 5)`. -/
def extentOf (entry : List Nat) : Nat := entry.getD 12 0 + (entry.getD 14 0 <<< 5)

/-- Stable insertion for sorting extents by extent number. -/
def insertByFst (p : Nat × Nat × List Nat) :
    List (Nat × Nat × List Nat) → List (Nat × Nat × List Nat)
  | [] => [p]
  | q :: rest => if p.1 ≤ q.1 then p :: q :: rest else q :: insertByFst p rest

/-- The sort `extents.sort(key=lambda x: x[0])` (stable). -/
def sortByFst (l : List (Nat × Nat × List Nat)) : List (Nat × Nat × List Nat) :=
  l.foldr insertByFst []

/-- The loop `while data and data[-1] == x: data = data[:-1]`. -/
def stripTrailing (x : Nat) (l : List Nat) : List Nat :=
  ((l.reverse).dropWhile (fun b => decide (b = x))).reverse

/-- The extent-discovery scan of `extract_file`: every occupied entry whose
name and extension match, as `(extent number, record count, blocks)`. -/
def matchingExtents (disk : Disk) (tn te : List Nat) : List (Nat × Nat × List Nat) :=
  (List.range DIR_ENTRIES).filterMap (fun i =>
    if isOccupied (dirEntry disk i) then
      if ((dirEntry disk i).drop 1).take 8 = tn ∧ ((dirEntry disk i).drop 9).take 3 = te then
        some (extentOf (dirEntry disk i), (dirEntry disk i).getD 15 0,
          entryBlocks (dirEntry disk i))
      else none
    else none)

/-- The operation `extract_file`: `none` models the `File not found` failure.  The matched
extents are sorted by extent number, their blocks' bytes concatenated, the
result trimmed to `total_records * SECTOR_SIZE` (computed from the sorted
list's length and its last record count) and trailing 0x1A stripped. -/
def extract_file (disk : Disk) (name0 ext0 : List Nat) : Option (List Nat) :=
  if matchingExtents disk (padTo name0 8) (padTo ext0 3) = [] then none
  else
    some (stripTrailing 0x1A
      (((sortByFst (matchingExtents disk (padTo name0 8) (padTo ext0 3))).flatMap (fun t =>
          t.2.2.flatMap (fun b => readBytes disk (blockOffset b) BLOCK_SIZE))).take
        ((((sortByFst (matchingExtents disk (padTo name0 8) (padTo ext0 3))).length - 1) * 128 +
          ((sortByFst (matchingExtents disk (padTo name0 8) (padTo ext0 3))).getLastD
            (0, 0, [])).2.1) * SECTOR_SIZE)))

/-- Directory slots whose status byte is the empty sentinel, in scan order. -/
def freeSlots (d : Disk) : List Nat :=
  (List.range DIR_ENTRIES).filter (fun j => decide (d (slotOff j) = EMPTY_ENTRY))

/-- Number of allocation blocks not referenced by any occupied entry. -/
def numFreeBlocks (d : Disk) : Nat :=
  ((List.range' 2 (TOTAL_BLOCKS - 2)).filter (fun b => decide (b ∉ usedBlocksList d))).length

/-- The slot/entry pairs the extent loop will write, given the remaining loop
iteration count, the current free slots, the remaining blocks and the next
extent number. -/
def plannedEntries (nm ex : List Nat) (records : Nat) :
    Nat → List Nat → List Nat → Nat → List (Nat × List Nat)
  | 0, _, _, _ => []
  | _ + 1, _, [], _ => []
  | _ + 1, [], _ :: _, _ => []
  | g + 1, j :: js, b :: rest, extent =>
    (j, mkEntry nm ex extent (min (records - extent * 128) 128) ((b :: rest).take 16)) ::
      plannedEntries nm ex records g js (rest.drop 15) (extent + 1)

/-- Write a list of `(slot, entry)` pairs into the directory. -/
def appliedEntries (dk : Disk) (ps : List (Nat × List Nat)) : Disk :=
  ps.foldl (fun d p => writeRange d (slotOff p.1) ENTRY_SIZE p.2) dk

/-- The free blocks `add_file` acquires for `data`. -/
def fbsOf (disk : Disk) (data : List Nat) : List Nat :=
  find_free_blocks disk ((data.length + BLOCK_SIZE - 1) / BLOCK_SIZE)

/-- The record count `records = ceil(len(data) / SECTOR_SIZE)`. -/
def recordsOf (data : List Nat) : Nat := (data.length + SECTOR_SIZE - 1) / SECTOR_SIZE

/-- The image produced by a successful `add_file`, described directly: the data
chunks written to the acquired blocks, then one directory entry per 16-block
group written into the successive free slots. -/
def finalDisk (disk : Disk) (n0 e0 data : List Nat) : Disk :=
  appliedEntries (writeDataBlocksAux data disk (fbsOf disk data) 0)
    (plannedEntries (padTo n0 8) (padTo e0 3) (recordsOf data)
      (groupCount (fbsOf disk data).length) (freeSlots disk) (fbsOf disk data) 0)

/-- The number of blocks `add_file` acquires on a blank image for `data`
(one block even for empty data, because the collection loop of
`find_free_blocks` appends a block before testing the count). -/
def blankNB (data : List Nat) : Nat := max ((data.length + BLOCK_SIZE - 1) / BLOCK_SIZE) 1

/-- The number of directory entries `add_file` writes on a blank image. -/
def blankG (data : List Nat) : Nat := groupCount (blankNB data)

/-- Images reachable from a fresh image by successful `add_file` calls. -/
inductive Reachable : Disk → Prop
  | blank : Reachable create_disk
  | step (dk : Disk) (n e d : List Nat) (dk' : Disk) :
      Reachable dk → add_file dk n e d = some dk' → Reachable dk'

/-- An image whose directory slots 0–62 are occupied (status byte 0) with no
blocks, and slot 63 is free. -/
def disk63 : Disk := fun a => if a = slotOff 63 then EMPTY_ENTRY else 0

def nameF : List Nat := [70]
def extEXT : List Nat := [69, 88, 84]

/-! ### Basic byte-level lemmas -/

theorem writeRange_in (d : Disk) (start len : Nat) (bs : List Nat) (a : Nat)
    (h1 : start ≤ a) (h2 : a < start + len) :
    writeRange d start len bs a = bs.getD (a - start) 0 := by
  simp only [writeRange, if_pos (And.intro h1 h2)]

theorem writeRange_out (d : Disk) (start len : Nat) (bs : List Nat) (a : Nat)
    (h : ¬(start ≤ a ∧ a < start + len)) :
    writeRange d start len bs a = d a := by
  simp only [writeRange, if_neg h]

theorem length_readBytes (d : Disk) (s n : Nat) : (readBytes d s n).length = n := by
  simp [readBytes]

theorem getElem_readBytes (d : Disk) (s n i : Nat) (h : i < (readBytes d s n).length) :
    (readBytes d s n)[i] = d (s + i) := by
  simp [readBytes]

theorem getD_readBytes (d : Disk) (s n i : Nat) (h : i < n) :
    (readBytes d s n).getD i 0 = d (s + i) := by
  rw [List.getD_eq_getElem _ _ (by simpa [length_readBytes] using h), getElem_readBytes]

theorem readBytes_congr {d1 d2 : Disk} (s n : Nat) (h : ∀ j < n, d1 (s + j) = d2 (s + j)) :
    readBytes d1 s n = readBytes d2 s n := by
  simp only [readBytes]
  exact List.map_congr_left (fun j hj => h j (List.mem_range.1 hj))

theorem dirEntry_getD (d : Disk) (i t : Nat) (h : t < ENTRY_SIZE) :
    (dirEntry d i).getD t 0 = d (slotOff i + t) :=
  getD_readBytes _ _ _ _ h

theorem dirEntry_congr {d1 d2 : Disk} (i : Nat)
    (h : ∀ t < ENTRY_SIZE, d1 (slotOff i + t) = d2 (slotOff i + t)) :
    dirEntry d1 i = dirEntry d2 i :=
  readBytes_congr _ _ h

/-! ### The fresh image -/

theorem foldl_setByte (off : Nat → Nat) (v : Nat) :
    ∀ (l : List Nat) (d : Disk) (a : Nat),
      (l.foldl (fun d i => setByte d (off i) v) d) a =
        if ∃ i ∈ l, off i = a then v else d a := by
  intro l
  induction l with
  | nil => intro d a; simp
  | cons i l ih =>
    intro d a
    rw [List.foldl_cons, ih]
    by_cases hl : ∃ j ∈ l, off j = a
    · obtain ⟨j, hj, hoff⟩ := hl
      rw [if_pos ⟨j, hj, hoff⟩, if_pos ⟨j, List.mem_cons_of_mem _ hj, hoff⟩]
    · rw [if_neg hl]
      by_cases hi : off i = a
      · rw [if_pos ⟨i, List.mem_cons_self i l, hi⟩, setByte, if_pos hi.symm]
      · rw [setByte, if_neg (fun h => hi h.symm), if_neg]
        rintro ⟨j, hj, hoff⟩
        rcases List.mem_cons.1 hj with rfl | hj'
        · exact hi hoff
        · exact hl ⟨j, hj', hoff⟩

theorem create_disk_slot0 (i : Nat) (h : i < DIR_ENTRIES) :
    create_disk (slotOff i) = EMPTY_ENTRY := by
  rw [create_disk, foldl_setByte]
  exact if_pos ⟨i, List.mem_range.2 h, rfl⟩

theorem create_disk_of_no_slot (a : Nat) (h : ∀ i < DIR_ENTRIES, slotOff i ≠ a) :
    create_disk a = 0 := by
  rw [create_disk, foldl_setByte, if_neg]
  rintro ⟨i, hi, hoff⟩
  exact h i (List.mem_range.1 hi) hoff

/-! ### `find_free_blocks` characterization -/

theorem collectFree_eq (used : List Nat) (count : Nat) :
    ∀ (cand acc : List Nat),
      collectFree used count cand acc =
        acc ++ (cand.filter (fun b => decide (b ∉ used))).take (max (count - acc.length) 1) := by
  intro cand
  induction cand with
  | nil => intro acc; simp [collectFree]
  | cons b rest ih =>
    intro acc
    by_cases hb : b ∈ used
    · rw [collectFree, if_pos hb, ih]
      simp [hb]
    · rw [collectFree, if_neg hb]
      have hfil : (b :: rest).filter (fun b => decide (b ∉ used)) =
          b :: rest.filter (fun b => decide (b ∉ used)) := by
        simp [hb]
      by_cases hc : count ≤ (acc ++ [b]).length
      · rw [if_pos hc, hfil]
        have : max (count - acc.length) 1 = 1 := by
          simp at hc
          omega
        rw [this]
        simp
      · rw [if_neg hc, ih, hfil]
        simp only [List.length_append, List.length_cons, List.length_nil] at hc
        have h1 : max (count - (acc ++ [b]).length) 1 = count - acc.length - 1 := by
          simp only [List.length_append, List.length_cons, List.length_nil]
          omega
        have h2 : max (count - acc.length) 1 = count - acc.length := by omega
        rw [h1, h2]
        have h3 : count - acc.length = (count - acc.length - 1) + 1 := by omega
        rw [h3, List.take_succ_cons]
        simp

theorem find_free_blocks_eq (d : Disk) (count : Nat) :
    find_free_blocks d count =
      ((List.range' 2 (TOTAL_BLOCKS - 2)).filter
        (fun b => decide (b ∉ usedBlocksList d))).take (max count 1) := by
  rw [find_free_blocks, collectFree_eq]
  simp

theorem find_free_blocks_nodup (d : Disk) (count : Nat) :
    (find_free_blocks d count).Nodup := by
  rw [find_free_blocks_eq]
  exact ((List.take_sublist _ _).trans (List.filter_sublist _)).nodup (List.nodup_range' _ _)

theorem mem_find_free_blocks {d : Disk} {count b : Nat} (h : b ∈ find_free_blocks d count) :
    2 ≤ b ∧ b < TOTAL_BLOCKS ∧ b ∉ usedBlocksList d := by
  rw [find_free_blocks_eq] at h
  have h2 := List.mem_of_mem_take h
  rw [List.mem_filter] at h2
  obtain ⟨hr, hu⟩ := h2
  rw [List.mem_range'_1] at hr
  refine ⟨hr.1, ?_, by simpa using hu⟩
  have : TOTAL_BLOCKS = 247 := by decide
  omega

theorem length_find_free_blocks (d : Disk) (count : Nat) :
    (find_free_blocks d count).length = min (max count 1) (numFreeBlocks d) := by
  rw [find_free_blocks_eq, List.length_take, numFreeBlocks]

/-! ### Entry and chunk structure -/

theorem length_padTo (s : List Nat) (n : Nat) : (padTo s n).length = n := by
  simp only [padTo, List.length_append, List.length_replicate, List.length_take]
  omega

theorem length_mkEntry (nm ex : List Nat) (e r : Nat) (blks : List Nat)
    (hnm : nm.length = 8) (hex : ex.length = 3) (hb : blks.length ≤ 16) :
    (mkEntry nm ex e r blks).length = ENTRY_SIZE := by
  simp only [mkEntry, List.length_append, List.length_replicate, List.length_cons,
    List.length_nil, hnm, hex]
  simp only [ENTRY_SIZE]
  omega

theorem mkEntry_getD_zero (nm ex : List Nat) (e r : Nat) (blks : List Nat) :
    (mkEntry nm ex e r blks).getD 0 0 = 0 := rfl

theorem mkEntry_name (nm ex : List Nat) (e r : Nat) (blks : List Nat)
    (hnm : nm.length = 8) :
    ((mkEntry nm ex e r blks).drop 1).take 8 = nm := by
  have h : mkEntry nm ex e r blks =
      0 :: (nm ++ (ex ++ [e &&& 0x1F, 0, (e >>> 5) &&& 0x3F, r] ++
        (blks ++ List.replicate (16 - blks.length) 0))) := by
    simp [mkEntry]
  rw [h, List.drop_one, List.tail_cons, List.take_left' hnm]

theorem mkEntry_ext (nm ex : List Nat) (e r : Nat) (blks : List Nat)
    (hnm : nm.length = 8) (hex : ex.length = 3) :
    ((mkEntry nm ex e r blks).drop 9).take 3 = ex := by
  have h : mkEntry nm ex e r blks =
      (0 :: nm) ++ (ex ++ ([e &&& 0x1F, 0, (e >>> 5) &&& 0x3F, r] ++
        (blks ++ List.replicate (16 - blks.length) 0))) := by
    simp [mkEntry]
  rw [h, List.drop_left' (by simp [hnm]), List.take_left' hex]

theorem mkEntry_getD_12 (nm ex : List Nat) (e r : Nat) (blks : List Nat)
    (hnm : nm.length = 8) (hex : ex.length = 3) :
    (mkEntry nm ex e r blks).getD 12 0 = e &&& 0x1F := by
  have h : mkEntry nm ex e r blks =
      ((0 :: nm) ++ ex) ++ ((e &&& 0x1F) :: [0, (e >>> 5) &&& 0x3F, r] ++
        (blks ++ List.replicate (16 - blks.length) 0)) := by
    simp [mkEntry]
  rw [h, List.getD_append_right _ _ _ _ (by simp [hnm, hex])]
  simp [hnm, hex]

theorem mkEntry_getD_14 (nm ex : List Nat) (e r : Nat) (blks : List Nat)
    (hnm : nm.length = 8) (hex : ex.length = 3) :
    (mkEntry nm ex e r blks).getD 14 0 = (e >>> 5) &&& 0x3F := by
  have h : mkEntry nm ex e r blks =
      ((0 :: nm) ++ ex) ++ ((e &&& 0x1F) :: [0, (e >>> 5) &&& 0x3F, r] ++
        (blks ++ List.replicate (16 - blks.length) 0)) := by
    simp [mkEntry]
  rw [h, List.getD_append_right _ _ _ _ (by simp [hnm, hex])]
  simp [hnm, hex]

theorem mkEntry_getD_15 (nm ex : List Nat) (e r : Nat) (blks : List Nat)
    (hnm : nm.length = 8) (hex : ex.length = 3) :
    (mkEntry nm ex e r blks).getD 15 0 = r := by
  have h : mkEntry nm ex e r blks =
      ((0 :: nm) ++ ex) ++ ((e &&& 0x1F) :: [0, (e >>> 5) &&& 0x3F, r] ++
        (blks ++ List.replicate (16 - blks.length) 0)) := by
    simp [mkEntry]
  rw [h, List.getD_append_right _ _ _ _ (by simp [hnm, hex])]
  simp [hnm, hex]

theorem mkEntry_getD_blocks (nm ex : List Nat) (e r : Nat) (blks : List Nat)
    (hnm : nm.length = 8) (hex : ex.length = 3) (j : Nat) :
    (mkEntry nm ex e r blks).getD (16 + j) 0 =
      (blks ++ List.replicate (16 - blks.length) 0).getD j 0 := by
  have h : mkEntry nm ex e r blks =
      ((0 :: nm) ++ ex ++ [e &&& 0x1F, 0, (e >>> 5) &&& 0x3F, r]) ++
        (blks ++ List.replicate (16 - blks.length) 0) := by
    simp [mkEntry]
  rw [h, List.getD_append_right _ _ _ _ (by simp [hnm, hex])]
  congr 1
  simp [hnm, hex]

theorem entryBlocks_mkEntry (nm ex : List Nat) (e r : Nat) (blks : List Nat)
    (hnm : nm.length = 8) (hex : ex.length = 3) (hb : blks.length ≤ 16)
    (hpos : ∀ b ∈ blks, 0 < b) :
    entryBlocks (mkEntry nm ex e r blks) = blks := by
  unfold entryBlocks
  have hsplit : List.range 16 =
      List.range blks.length ++ (List.range (16 - blks.length)).map
        (fun x => blks.length + x) := by
    rw [← List.range_add]
    congr 1
    omega
  rw [hsplit, List.filterMap_append]
  have h1 : (List.range blks.length).filterMap (fun b =>
      if 0 < (mkEntry nm ex e r blks).getD (16 + b) 0 then
        some ((mkEntry nm ex e r blks).getD (16 + b) 0) else none) =
      (List.range blks.length).filterMap (fun b => some (blks.getD b 0)) := by
    apply List.filterMap_congr
    intro j hj
    rw [List.mem_range] at hj
    rw [mkEntry_getD_blocks _ _ _ _ _ hnm hex, List.getD_append _ _ _ _ (by omega)]
    rw [if_pos]
    rw [List.getD_eq_getElem _ _ (by omega)]
    exact hpos _ (List.getElem_mem _)
  have h2 : ((List.range (16 - blks.length)).map (fun x => blks.length + x)).filterMap
      (fun b => if 0 < (mkEntry nm ex e r blks).getD (16 + b) 0 then
        some ((mkEntry nm ex e r blks).getD (16 + b) 0) else none) = [] := by
    rw [List.filterMap_eq_nil_iff]
    intro a ha
    rw [List.mem_map] at ha
    obtain ⟨x, hx, rfl⟩ := ha
    rw [List.mem_range] at hx
    rw [mkEntry_getD_blocks _ _ _ _ _ hnm hex,
      List.getD_append_right _ _ _ _ (by omega), Nat.add_sub_cancel_left,
      List.getD_eq_getElem _ _ (by simpa using hx), List.getElem_replicate]
    simp
  rw [h1, h2, List.append_nil]
  have : (fun b => some (blks.getD b 0)) = some ∘ (fun b => blks.getD b 0) := rfl
  rw [this, List.filterMap_eq_map]
  apply List.ext_getElem
  · simp
  · intro n h1' h2'
    simp only [List.getElem_map, List.getElem_range]
    rw [List.getD_eq_getElem _ _ (by simpa using h1')]

theorem length_chunkAt (data : List Nat) (i : Nat) :
    (chunkAt data i).length = BLOCK_SIZE := by
  simp only [chunkAt, List.length_append, List.length_replicate, List.length_take,
    List.length_drop]
  omega

/-! ### Data-block writing -/

theorem blockOffset_eq (b : Nat) : blockOffset b = 8704 + (b - 2) * 1024 := by
  simp [blockOffset, DATA_OFFSET, DIR_OFFSET, DIR_ENTRIES, ENTRY_SIZE,
    RESERVED_TRACKS, SECTORS_PER_TRACK, SECTOR_SIZE, BLOCK_SIZE]

theorem slotOff_eq (i : Nat) : slotOff i = 6656 + i * 32 := by
  simp [slotOff, DIR_OFFSET, ENTRY_SIZE, RESERVED_TRACKS, SECTORS_PER_TRACK, SECTOR_SIZE]

theorem blockRange_disjoint {b b' t : Nat} (h2 : 2 ≤ b) (h2' : 2 ≤ b') (hne : b ≠ b')
    (ht : t < BLOCK_SIZE) :
    ¬(blockOffset b' ≤ blockOffset b + t ∧ blockOffset b + t < blockOffset b' + BLOCK_SIZE) := by
  rw [blockOffset_eq, blockOffset_eq]
  have hB : BLOCK_SIZE = 1024 := by decide
  rw [hB] at ht ⊢
  omega

theorem writeDataBlocksAux_out (data : List Nat) :
    ∀ (fbs : List Nat) (d : Disk) (i a : Nat),
      (∀ b ∈ fbs, ¬(blockOffset b ≤ a ∧ a < blockOffset b + BLOCK_SIZE)) →
      writeDataBlocksAux data d fbs i a = d a := by
  intro fbs
  induction fbs with
  | nil => intro d i a _; rfl
  | cons b rest ih =>
    intro d i a h
    simp only [writeDataBlocksAux]
    rw [ih _ _ _ (fun b' hb' => h b' (List.mem_cons_of_mem _ hb'))]
    exact writeRange_out _ _ _ _ _ (h b (List.mem_cons_self _ _))

theorem writeDataBlocksAux_dir (data : List Nat) (fbs : List Nat) (d : Disk) (i a : Nat)
    (h2 : ∀ b ∈ fbs, 2 ≤ b) (ha : a < DATA_OFFSET) :
    writeDataBlocksAux data d fbs i a = d a := by
  apply writeDataBlocksAux_out
  intro b hb
  have := h2 b hb
  rw [blockOffset_eq]
  have hD : DATA_OFFSET = 8704 := by decide
  rw [hD] at ha
  omega

theorem writeDataBlocksAux_in (data : List Nat) :
    ∀ (fbs : List Nat) (d : Disk) (i k t : Nat) (hk : k < fbs.length),
      fbs.Nodup → (∀ b ∈ fbs, 2 ≤ b) → t < BLOCK_SIZE →
      writeDataBlocksAux data d fbs i (blockOffset (fbs.get ⟨k, hk⟩) + t) =
        (chunkAt data (i + k)).getD t 0 := by
  intro fbs
  induction fbs with
  | nil => intro d i k t hk; simp at hk
  | cons b rest ih =>
    intro d i k t hk hnd h2 ht
    match k with
    | 0 =>
      simp only [writeDataBlocksAux, List.get]
      rw [writeDataBlocksAux_out]
      · rw [writeRange_in _ _ _ _ _ (Nat.le_add_right _ _) (by omega),
          Nat.add_sub_cancel_left, Nat.add_zero]
      · intro b' hb'
        have hbb' : b' ≠ b := fun h => (List.nodup_cons.1 hnd).1 (h ▸ hb')
        exact blockRange_disjoint (h2 b (List.mem_cons_self _ _))
          (h2 b' (List.mem_cons_of_mem _ hb')) (Ne.symm hbb') ht
    | k + 1 =>
      simp only [writeDataBlocksAux, List.get]
      rw [ih _ _ _ _ (by simpa using hk) (List.nodup_cons.1 hnd).2
        (fun b' hb' => h2 b' (List.mem_cons_of_mem _ hb')) ht]
      congr 2
      omega

theorem readBlock_wdb (data : List Nat) (fbs : List Nat) (d : Disk) (k : Nat)
    (hk : k < fbs.length) (hnd : fbs.Nodup) (h2 : ∀ b ∈ fbs, 2 ≤ b) :
    readBytes (writeDataBlocksAux data d fbs 0) (blockOffset (fbs.get ⟨k, hk⟩)) BLOCK_SIZE =
      chunkAt data k := by
  apply List.ext_getElem (by simp [length_readBytes, length_chunkAt])
  intro t h1 h1'
  rw [getElem_readBytes]
  have ht : t < BLOCK_SIZE := by simpa [length_readBytes] using h1
  rw [writeDataBlocksAux_in data fbs d 0 k t hk hnd h2 ht, Nat.zero_add,
    List.getD_eq_getElem _ _ (by rw [length_chunkAt]; exact ht)]

/-- Concatenating all chunks written for `data` over `m` blocks. -/
theorem chunks_flat (data : List Nat) :
    ∀ m, (List.range m).flatMap (fun i => chunkAt data i) =
      data.take (m * BLOCK_SIZE) ++
        List.replicate (m * BLOCK_SIZE - min data.length (m * BLOCK_SIZE)) 0x1A := by
  intro m
  induction m with
  | zero => simp
  | succ m ih =>
    rw [List.range_succ, List.flatMap_append, ih]
    simp only [List.flatMap_cons, List.flatMap_nil, List.append_nil]
    by_cases hle : data.length ≤ m * BLOCK_SIZE
    · rw [List.take_of_length_le hle,
        List.take_of_length_le (le_trans hle (by simp [Nat.succ_mul]))]
      unfold chunkAt
      rw [List.drop_of_length_le hle]
      simp only [List.take_nil, List.nil_append, List.length_nil, Nat.sub_zero]
      rw [List.append_assoc, ← List.replicate_add]
      congr 1
      have hs : (m + 1) * BLOCK_SIZE = m * BLOCK_SIZE + BLOCK_SIZE := by ring
      rw [min_eq_left hle, min_eq_left (le_trans hle (by rw [hs]; exact Nat.le_add_right _ _)),
        hs]
      congr 1
      omega
    · push_neg at hle
      have hC : m * BLOCK_SIZE - min data.length (m * BLOCK_SIZE) = 0 := by omega
      rw [hC]
      simp only [List.replicate_zero, List.append_nil]
      unfold chunkAt
      rw [Nat.succ_mul]
      have hlen : BLOCK_SIZE - ((data.drop (m * BLOCK_SIZE)).take BLOCK_SIZE).length =
          m * BLOCK_SIZE + BLOCK_SIZE -
            min data.length (m * BLOCK_SIZE + BLOCK_SIZE) := by
        simp only [List.length_take, List.length_drop]
        omega
      rw [hlen, List.take_add, List.append_assoc]

/-! ### The directory-entry loop -/

theorem find?_eq_head_filter {α : Type} (p : α → Bool) :
    ∀ l : List α, l.find? p = (l.filter p).head? := by
  intro l
  induction l with
  | nil => rfl
  | cons x l ih =>
    by_cases hx : p x
    · rw [List.find?_cons_of_pos _ hx, List.filter_cons_of_pos hx, List.head?_cons]
    · rw [List.find?_cons_of_neg _ hx, List.filter_cons_of_neg hx, ih]

theorem find_free_dir_entry_eq (d : Disk) :
    find_free_dir_entry d = (freeSlots d).head? :=
  find?_eq_head_filter _ _

theorem filter_tail_of_head {p q : Nat → Bool} {j : Nat} :
    ∀ {l t : List Nat}, l.Nodup → l.filter p = j :: t →
      (∀ x ∈ l, x ≠ j → q x = p x) → q j = false →
      l.filter q = t := by
  intro l
  induction l with
  | nil => intro t _ hf; simp at hf
  | cons x l ih =>
    intro t hnd hf hq hqj
    by_cases hx : p x
    · rw [List.filter_cons_of_pos hx, List.cons.injEq] at hf
      obtain ⟨rfl, rfl⟩ := hf
      rw [List.filter_cons_of_neg (by rw [hqj]; exact Bool.false_ne_true)]
      apply List.filter_congr
      intro y hy
      exact hq y (List.mem_cons_of_mem _ hy)
        (fun h => (List.nodup_cons.1 hnd).1 (h ▸ hy))
    · rw [List.filter_cons_of_neg hx] at hf
      have hj_mem : j ∈ l := (List.mem_filter.1 (hf ▸ List.mem_cons_self j t)).1
      have hxj : x ≠ j := fun h => (List.nodup_cons.1 hnd).1 (h ▸ hj_mem)
      rw [List.filter_cons_of_neg (by rw [hq x (List.mem_cons_self _ _) hxj]; exact hx)]
      exact ih (List.nodup_cons.1 hnd).2 hf
        (fun y hy => hq y (List.mem_cons_of_mem _ hy)) hqj

theorem mem_freeSlots {d : Disk} {j : Nat} (h : j ∈ freeSlots d) :
    j < DIR_ENTRIES ∧ d (slotOff j) = EMPTY_ENTRY := by
  rw [freeSlots, List.mem_filter, List.mem_range] at h
  exact ⟨h.1, of_decide_eq_true h.2⟩

theorem freeSlots_nodup (d : Disk) : (freeSlots d).Nodup :=
  (List.filter_sublist _).nodup (List.nodup_range _)

theorem freeSlots_writeEntry {d : Disk} {j : Nat} {ent : List Nat} {js : List Nat}
    (hfs : freeSlots d = j :: js) (h0 : ent.getD 0 0 ≠ EMPTY_ENTRY) :
    freeSlots (writeRange d (slotOff j) ENTRY_SIZE ent) = js := by
  apply filter_tail_of_head (List.nodup_range _) hfs
  · intro x _ hxj
    congr 1
    rw [writeRange_out]
    rw [slotOff_eq, slotOff_eq]
    have hE : ENTRY_SIZE = 32 := rfl
    rw [hE]
    omega
  · rw [decide_eq_false_iff_not]
    intro hcontra
    apply h0
    rw [writeRange_in _ _ _ _ _ (Nat.le_refl _)
      (Nat.lt_add_of_pos_right (by decide)), Nat.sub_self] at hcontra
    exact hcontra

theorem groupCount_zero_iff (n : Nat) : groupCount n = 0 ↔ n = 0 := by
  unfold groupCount; omega

/-- Success of the extent-writing loop, with a full description of the final
image, when enough free directory slots remain. -/
theorem writeExtentsAux_ok (nm ex : List Nat) (records : Nat) :
    ∀ (g : Nat) (remaining : List Nat) (d : Disk) (extent : Nat),
      groupCount remaining.length = g →
      g ≤ (freeSlots d).length →
      writeExtentsAux nm ex records g d remaining extent =
        (AddOutcome.ok,
          appliedEntries d (plannedEntries nm ex records g (freeSlots d) remaining extent)) := by
  intro g
  induction g with
  | zero =>
    intro remaining d extent hg _
    have hrem : remaining = [] :=
      List.eq_nil_of_length_eq_zero ((groupCount_zero_iff _).1 hg)
    subst hrem
    simp [writeExtentsAux, plannedEntries, appliedEntries]
  | succ g ih =>
    intro remaining d extent hg hle
    match remaining with
    | [] =>
      exfalso
      rw [List.length_nil, (groupCount_zero_iff 0).2 rfl] at hg
      omega
    | b :: rest =>
      obtain ⟨j, js, hjs⟩ : ∃ j js, freeSlots d = j :: js := by
        cases hfs : freeSlots d with
        | nil => rw [hfs] at hle; simp at hle
        | cons j js => exact ⟨j, js, rfl⟩
      rw [hjs]
      simp only [writeExtentsAux, find_free_dir_entry_eq, hjs, List.head?_cons,
        plannedEntries, appliedEntries, List.foldl_cons]
      have hfs2 : freeSlots (writeRange d (slotOff j) ENTRY_SIZE
          (mkEntry nm ex extent (min (records - extent * 128) 128) ((b :: rest).take 16))) =
          js := freeSlots_writeEntry hjs (by rw [mkEntry_getD_zero]; decide)
      have hg' : groupCount (rest.drop 15).length = g := by
        unfold groupCount at hg ⊢
        simp only [List.length_drop, List.length_cons] at hg ⊢
        omega
      have hle' : g ≤ js.length := by
        rw [hjs, List.length_cons] at hle
        omega
      rw [ih (rest.drop 15) _ (extent + 1) hg' (by rw [hfs2]; exact hle'), hfs2]
      rfl

/-- When fewer free directory slots remain than extent groups are needed, the
loop fails with `directoryFull`. -/
theorem writeExtentsAux_full (nm ex : List Nat) (records : Nat) :
    ∀ (g : Nat) (remaining : List Nat) (d : Disk) (extent : Nat),
      groupCount remaining.length = g →
      (freeSlots d).length < g →
      (writeExtentsAux nm ex records g d remaining extent).1 = AddOutcome.directoryFull := by
  intro g
  induction g with
  | zero => intro remaining d extent _ hlt; omega
  | succ g ih =>
    intro remaining d extent hg hlt
    match remaining with
    | [] =>
      exfalso
      rw [List.length_nil, (groupCount_zero_iff 0).2 rfl] at hg
      omega
    | b :: rest =>
      cases hfs : freeSlots d with
      | nil =>
        simp only [writeExtentsAux, find_free_dir_entry_eq, hfs, List.head?_nil]
      | cons j js =>
        simp only [writeExtentsAux, find_free_dir_entry_eq, hfs, List.head?_cons]
        have hfs2 : freeSlots (writeRange d (slotOff j) ENTRY_SIZE
            (mkEntry nm ex extent (min (records - extent * 128) 128) ((b :: rest).take 16))) =
            js := freeSlots_writeEntry hfs (by rw [mkEntry_getD_zero]; decide)
        have hg' : groupCount (rest.drop 15).length = g := by
          unfold groupCount at hg ⊢
          simp only [List.length_drop, List.length_cons] at hg ⊢
          omega
        apply ih (rest.drop 15) _ (extent + 1) hg'
        rw [hfs2]
        rw [hfs, List.length_cons] at hlt
        omega

/-! ### Reading the directory after the loop -/

theorem slotRange_disjoint {j j' t : Nat} (hne : j ≠ j') (ht : t < ENTRY_SIZE) :
    ¬(slotOff j' ≤ slotOff j + t ∧ slotOff j + t < slotOff j' + ENTRY_SIZE) := by
  rw [slotOff_eq, slotOff_eq]
  have hE : ENTRY_SIZE = 32 := rfl
  rw [hE] at ht ⊢
  omega

theorem appliedEntries_cons (d : Disk) (p : Nat × List Nat) (ps : List (Nat × List Nat)) :
    appliedEntries d (p :: ps) =
      appliedEntries (writeRange d (slotOff p.1) ENTRY_SIZE p.2) ps := rfl

theorem appliedEntries_out (ps : List (Nat × List Nat)) :
    ∀ (d : Disk) (a : Nat),
      (∀ p ∈ ps, ¬(slotOff p.1 ≤ a ∧ a < slotOff p.1 + ENTRY_SIZE)) →
      appliedEntries d ps a = d a := by
  induction ps with
  | nil => intro d a _; rfl
  | cons p ps ih =>
    intro d a h
    rw [appliedEntries_cons, ih _ _ (fun q hq => h q (List.mem_cons_of_mem _ hq)),
      writeRange_out _ _ _ _ _ (h p (List.mem_cons_self _ _))]

theorem appliedEntries_in (ps : List (Nat × List Nat)) :
    ∀ (d : Disk) (j : Nat) (ent : List Nat) (t : Nat),
      (j, ent) ∈ ps → (ps.map Prod.fst).Nodup → t < ENTRY_SIZE →
      appliedEntries d ps (slotOff j + t) = ent.getD t 0 := by
  induction ps with
  | nil => intro d j ent t h; simp at h
  | cons p ps ih =>
    intro d j ent t hmem hnd ht
    rcases List.mem_cons.1 hmem with heq | hmem'
    · obtain ⟨rfl, rfl⟩ : p.1 = j ∧ p.2 = ent := by
        rw [← heq]
        exact ⟨rfl, rfl⟩
      rw [appliedEntries_cons, appliedEntries_out]
      · rw [writeRange_in _ _ _ _ _ (Nat.le_add_right _ _)
          (Nat.add_lt_add_left ht _), Nat.add_sub_cancel_left]
      · intro q hq
        have hqj : p.1 ≠ q.1 := by
          intro h
          exact (List.nodup_cons.1 (by simpa using hnd)).1
            (h ▸ List.mem_map_of_mem Prod.fst hq)
        exact slotRange_disjoint hqj ht
    · rw [appliedEntries_cons]
      exact ih _ _ _ _ hmem' (List.nodup_cons.1 (by simpa using hnd)).2 ht

theorem dirEntry_appliedEntries_of_mem {d : Disk} {ps : List (Nat × List Nat)} {j : Nat}
    {ent : List Nat} (hmem : (j, ent) ∈ ps) (hnd : (ps.map Prod.fst).Nodup)
    (hlen : ent.length = ENTRY_SIZE) :
    dirEntry (appliedEntries d ps) j = ent := by
  apply List.ext_getElem (by simp [dirEntry, length_readBytes, hlen])
  intro t h1 h2
  simp only [dirEntry]
  rw [getElem_readBytes,
    appliedEntries_in ps d j ent t hmem hnd (by simpa [dirEntry, length_readBytes] using h1),
    List.getD_eq_getElem _ _ h2]

theorem appliedEntries_unclaimed (ps : List (Nat × List Nat)) (d : Disk) (a : Nat)
    (h : ∀ p ∈ ps, ∀ t < ENTRY_SIZE, slotOff p.1 + t ≠ a) :
    appliedEntries d ps a = d a := by
  apply appliedEntries_out
  rintro p hp ⟨h1, h2⟩
  exact h p hp (a - slotOff p.1) (by omega) (by omega)

theorem dirEntry_appliedEntries_of_not_mem {d : Disk} {ps : List (Nat × List Nat)} {j : Nat}
    (hne : ∀ p ∈ ps, p.1 ≠ j) :
    dirEntry (appliedEntries d ps) j = dirEntry d j := by
  apply dirEntry_congr
  intro t ht
  apply appliedEntries_out
  intro p hp
  exact slotRange_disjoint (fun h => hne p hp h.symm) ht

theorem appliedEntries_dataRegion (ps : List (Nat × List Nat)) (d : Disk) (a : Nat)
    (hslots : ∀ p ∈ ps, p.1 < DIR_ENTRIES) (ha : DATA_OFFSET ≤ a) :
    appliedEntries d ps a = d a := by
  apply appliedEntries_out
  intro p hp
  have := hslots p hp
  rw [slotOff_eq]
  have hE : ENTRY_SIZE = 32 := rfl
  have hD : DATA_OFFSET = 8704 := by decide
  have hDE : DIR_ENTRIES = 64 := rfl
  rw [hD] at ha
  rw [hDE] at this
  rw [hE]
  omega

/-! ### Structure of the planned entries -/

theorem plannedEntries_length (nm ex : List Nat) (records : Nat) :
    ∀ (g : Nat) (fs remaining : List Nat) (extent : Nat),
      groupCount remaining.length = g → g ≤ fs.length →
      (plannedEntries nm ex records g fs remaining extent).length = g := by
  intro g
  induction g with
  | zero => intro fs remaining extent _ _; cases fs <;> cases remaining <;> rfl
  | succ g ih =>
    intro fs remaining extent hg hle
    match remaining, fs with
    | [], _ =>
      exfalso
      rw [List.length_nil, (groupCount_zero_iff 0).2 rfl] at hg
      omega
    | _ :: _, [] => simp at hle
    | b :: rest, j :: js =>
      simp only [plannedEntries, List.length_cons]
      congr 1
      apply ih
      · unfold groupCount at hg ⊢
        simp only [List.length_drop, List.length_cons] at hg ⊢
        omega
      · simpa using hle

theorem plannedEntries_fst (nm ex : List Nat) (records : Nat) :
    ∀ (g : Nat) (fs remaining : List Nat) (extent : Nat),
      groupCount remaining.length = g → g ≤ fs.length →
      (plannedEntries nm ex records g fs remaining extent).map Prod.fst = fs.take g := by
  intro g
  induction g with
  | zero => intro fs remaining extent _ _; cases fs <;> cases remaining <;> rfl
  | succ g ih =>
    intro fs remaining extent hg hle
    match remaining, fs with
    | [], _ =>
      exfalso
      rw [List.length_nil, (groupCount_zero_iff 0).2 rfl] at hg
      omega
    | _ :: _, [] => simp at hle
    | b :: rest, j :: js =>
      simp only [plannedEntries, List.map_cons, List.take_succ_cons]
      congr 1
      apply ih
      · unfold groupCount at hg ⊢
        simp only [List.length_drop, List.length_cons] at hg ⊢
        omega
      · simpa using hle

theorem plannedEntries_getElem (nm ex : List Nat) (records : Nat) :
    ∀ (g : Nat) (fs remaining : List Nat) (extent : Nat) (t : Nat) (ht : t < g)
      (hg : groupCount remaining.length = g) (hle : g ≤ fs.length)
      (h1 : t < (plannedEntries nm ex records g fs remaining extent).length)
      (h2 : t < fs.length),
      (plannedEntries nm ex records g fs remaining extent)[t] =
        (fs[t], mkEntry nm ex (extent + t) (min (records - (extent + t) * 128) 128)
          ((remaining.drop (16 * t)).take 16)) := by
  intro g
  induction g with
  | zero => intro fs remaining extent t ht; omega
  | succ g ih =>
    intro fs remaining extent t ht hg hle h1 h2
    match remaining, fs with
    | [], _ =>
      exfalso
      rw [List.length_nil, (groupCount_zero_iff 0).2 rfl] at hg
      omega
    | _ :: _, [] => simp at hle
    | b :: rest, j :: js =>
      match t with
      | 0 => simp [plannedEntries]
      | t + 1 =>
        have hg' : groupCount (rest.drop 15).length = g := by
          unfold groupCount at hg ⊢
          simp only [List.length_drop, List.length_cons] at hg ⊢
          omega
        have hle' : g ≤ js.length := by simpa using hle
        simp only [plannedEntries, List.getElem_cons_succ]
        rw [ih js (rest.drop 15) (extent + 1) t (by omega) hg' hle'
          (by rw [plannedEntries_length nm ex records g js (rest.drop 15) (extent + 1) hg' hle']
              omega)
          (by simp only [List.length_cons] at h2; omega)]
        congr 2
        · omega
        · congr 2
          omega
        · have h16 : 16 * (t + 1) = 16 * t + 15 + 1 := by omega
          rw [h16, List.drop_succ_cons, List.drop_drop]
          congr 2
          omega

/-! ### Characterizing `add_file` -/

theorem slotOff_add_lt_data {j t : Nat} (hj : j < DIR_ENTRIES) (ht : t < ENTRY_SIZE) :
    slotOff j + t < DATA_OFFSET := by
  rw [slotOff_eq]
  have hD : DATA_OFFSET = 8704 := by decide
  have h64 : DIR_ENTRIES = 64 := rfl
  have hE : ENTRY_SIZE = 32 := rfl
  rw [hD]
  rw [h64] at hj
  rw [hE] at ht
  omega

theorem slotOff_lt_data {j : Nat} (hj : j < DIR_ENTRIES) : slotOff j < DATA_OFFSET := by
  have := slotOff_add_lt_data hj (show 0 < ENTRY_SIZE by decide)
  omega

theorem freeSlots_wdb (data fbs : List Nat) (d : Disk) (i : Nat)
    (h2 : ∀ b ∈ fbs, 2 ≤ b) :
    freeSlots (writeDataBlocksAux data d fbs i) = freeSlots d := by
  unfold freeSlots
  apply List.filter_congr
  intro j hj
  rw [writeDataBlocksAux_dir data fbs d i _ h2 (slotOff_lt_data (List.mem_range.1 hj))]

theorem ffb_ge_two (disk : Disk) (c : Nat) : ∀ b ∈ find_free_blocks disk c, 2 ≤ b :=
  fun _ hb => (mem_find_free_blocks hb).1

theorem add_file_run_ok (disk : Disk) (n0 e0 data : List Nat)
    (hbn : (data.length + BLOCK_SIZE - 1) / BLOCK_SIZE ≤ numFreeBlocks disk)
    (hg : groupCount (fbsOf disk data).length ≤ (freeSlots disk).length) :
    add_file_run disk n0 e0 data = (AddOutcome.ok, finalDisk disk n0 e0 data) := by
  have hcond : ¬(find_free_blocks disk ((data.length + BLOCK_SIZE - 1) / BLOCK_SIZE)).length <
      (data.length + BLOCK_SIZE - 1) / BLOCK_SIZE := by
    rw [length_find_free_blocks]
    omega
  simp only [add_file_run, if_neg hcond]
  rw [writeExtentsAux_ok _ _ _ _ _ _ _ rfl
    (by rw [freeSlots_wdb _ _ _ _ (ffb_ge_two disk _)]; exact hg)]
  unfold finalDisk fbsOf recordsOf
  rw [freeSlots_wdb _ _ _ _ (ffb_ge_two disk _)]

theorem add_file_run_full (disk : Disk) (n0 e0 data : List Nat)
    (hbn : (data.length + BLOCK_SIZE - 1) / BLOCK_SIZE ≤ numFreeBlocks disk)
    (hg : (freeSlots disk).length < groupCount (fbsOf disk data).length) :
    (add_file_run disk n0 e0 data).1 = AddOutcome.directoryFull := by
  have hcond : ¬(find_free_blocks disk ((data.length + BLOCK_SIZE - 1) / BLOCK_SIZE)).length <
      (data.length + BLOCK_SIZE - 1) / BLOCK_SIZE := by
    rw [length_find_free_blocks]
    omega
  simp only [add_file_run, if_neg hcond]
  exact writeExtentsAux_full _ _ _ _ _ _ _ rfl
    (by rw [freeSlots_wdb _ _ _ _ (ffb_ge_two disk _)]; exact hg)

theorem add_file_run_insufficient (disk : Disk) (n0 e0 data : List Nat)
    (hbn : numFreeBlocks disk < (data.length + BLOCK_SIZE - 1) / BLOCK_SIZE) :
    add_file_run disk n0 e0 data = (AddOutcome.insufficientSpace, disk) := by
  have hcond : (find_free_blocks disk ((data.length + BLOCK_SIZE - 1) / BLOCK_SIZE)).length <
      (data.length + BLOCK_SIZE - 1) / BLOCK_SIZE := by
    rw [length_find_free_blocks]
    omega
  simp only [add_file_run, if_pos hcond]

theorem add_file_ok_inv (disk : Disk) (n0 e0 data : List Nat) (disk' : Disk)
    (h : add_file disk n0 e0 data = some disk') :
    (data.length + BLOCK_SIZE - 1) / BLOCK_SIZE ≤ numFreeBlocks disk ∧
    groupCount (fbsOf disk data).length ≤ (freeSlots disk).length ∧
    disk' = finalDisk disk n0 e0 data := by
  by_cases hbn : (data.length + BLOCK_SIZE - 1) / BLOCK_SIZE ≤ numFreeBlocks disk
  · by_cases hg : groupCount (fbsOf disk data).length ≤ (freeSlots disk).length
    · refine ⟨hbn, hg, ?_⟩
      unfold add_file at h
      rw [add_file_run_ok disk n0 e0 data hbn hg] at h
      exact (Option.some.inj h).symm
    · exfalso
      have hrun : add_file_run disk n0 e0 data =
          (AddOutcome.directoryFull, (add_file_run disk n0 e0 data).2) := by
        rw [← add_file_run_full disk n0 e0 data hbn (by omega)]
      unfold add_file at h
      rw [hrun] at h
      simp at h
  · exfalso
    unfold add_file at h
    rw [add_file_run_insufficient disk n0 e0 data (by omega)] at h
    simp at h

/-! ### Generic helpers for the extraction path -/

theorem take_range' : ∀ (m s n : Nat), m ≤ n → (List.range' s n).take m = List.range' s m := by
  intro m
  induction m with
  | zero => intro s n _; rfl
  | succ m ih =>
    intro s n h
    match n with
    | n + 1 =>
      rw [List.range'_succ, List.take_succ_cons, List.range'_succ, ih (s + 1) n (by omega)]

theorem dropWhile_append_of_all {p : Nat → Bool} :
    ∀ {l₁ l₂ : List Nat}, (∀ x ∈ l₁, p x) → (l₁ ++ l₂).dropWhile p = l₂.dropWhile p := by
  intro l₁
  induction l₁ with
  | nil => intro l₂ _; rfl
  | cons x l ih =>
    intro l₂ h
    rw [List.cons_append, List.dropWhile_cons, if_pos (h x (List.mem_cons_self _ _))]
    exact ih (fun y hy => h y (List.mem_cons_of_mem _ hy))

theorem stripTrailing_append_pad (x : Nat) (l : List Nat) (k : Nat) :
    stripTrailing x (l ++ List.replicate k x) = stripTrailing x l := by
  unfold stripTrailing
  rw [List.reverse_append, List.reverse_replicate, dropWhile_append_of_all]
  intro y hy
  rw [List.mem_replicate] at hy
  simp [hy.2]

theorem sortByFst_cons (p : Nat × Nat × List Nat) (l : List (Nat × Nat × List Nat)) :
    sortByFst (p :: l) = insertByFst p (sortByFst l) := rfl

theorem sortByFst_sorted :
    ∀ l : List (Nat × Nat × List Nat),
      List.Pairwise (fun a b => a.1 ≤ b.1) l → sortByFst l = l := by
  intro l
  induction l with
  | nil => intro _; rfl
  | cons x l ih =>
    intro hp
    rw [sortByFst_cons, ih (List.Pairwise.sublist (List.sublist_cons_self _ _) hp)]
    match l with
    | [] => rfl
    | y :: l' =>
      rw [insertByFst, if_pos ((List.pairwise_cons.1 hp).1 y (List.mem_cons_self _ _))]

theorem flatMap_flatten (L : List (List Nat)) (f : Nat → List Nat) :
    L.flatten.flatMap f = (L.map (fun x => x.flatMap f)).flatten := by
  induction L with
  | nil => rfl
  | cons x L ih => rw [List.flatten_cons, List.flatMap_append, ih, List.map_cons,
      List.flatten_cons]

/-- Splitting a list into its 16-element groups and flattening recovers it. -/
theorem flatten_groups (l : List Nat) :
    ((List.range (groupCount l.length)).map (fun t => (l.drop (16 * t)).take 16)).flatten
      = l := by
  match hl : l with
  | [] => rfl
  | b :: rest =>
    have h1 : groupCount (b :: rest).length = (groupCount ((b :: rest).drop 16).length) + 1 := by
      unfold groupCount
      simp only [List.length_drop, List.length_cons]
      omega
    rw [h1, List.range_succ_eq_map, List.map_cons, List.flatten_cons, Nat.mul_zero,
      List.drop_zero, List.map_map]
    have h2 : ((fun t => ((b :: rest).drop (16 * t)).take 16) ∘ Nat.succ) =
        (fun t => (((b :: rest).drop 16).drop (16 * t)).take 16) := by
      funext t
      simp only [Function.comp_apply, List.drop_drop]
      congr 2
      omega
    rw [h2, flatten_groups ((b :: rest).drop 16), List.take_append_drop]
termination_by l.length
decreasing_by simp [List.length_drop, List.length_cons]; omega

/-- The extent-number encoding round-trips for the extent numbers `add_file`
can actually produce on one image (at most 16 extents). -/
theorem extent_decode_small : ∀ e < 32, (e &&& 0x1F) + (((e >>> 5) &&& 0x3F) <<< 5) = e := by
  decide

/-! ### `add_file` on a fresh image -/

theorem usedBlocksList_blank : usedBlocksList create_disk = [] := by decide

theorem numFreeBlocks_blank : numFreeBlocks create_disk = 245 := by decide

theorem freeSlots_blank : freeSlots create_disk = List.range 64 := by decide

theorem blankNB_le (data : List Nat) (hd : data.length ≤ 245 * 1024) :
    blankNB data ≤ 245 := by
  unfold blankNB
  have hB : BLOCK_SIZE = 1024 := rfl
  rw [hB]
  omega

theorem blankNB_pos (data : List Nat) : 1 ≤ blankNB data := by
  unfold blankNB
  omega

theorem blankG_le16 (data : List Nat) (hd : data.length ≤ 245 * 1024) :
    blankG data ≤ 16 := by
  have := blankNB_le data hd
  unfold blankG groupCount
  omega

theorem blankG_pos (data : List Nat) : 1 ≤ blankG data := by
  have := blankNB_pos data
  unfold blankG groupCount
  omega

theorem blank_fbs (data : List Nat) (hd : data.length ≤ 245 * 1024) :
    fbsOf create_disk data = List.range' 2 (blankNB data) := by
  unfold fbsOf blankNB
  rw [find_free_blocks_eq, usedBlocksList_blank]
  have h245 : TOTAL_BLOCKS - 2 = 245 := by decide
  rw [h245]
  have hfilter : (List.range' 2 245).filter (fun b => decide (b ∉ ([] : List Nat))) =
      List.range' 2 245 := by
    apply List.filter_eq_self.2
    intro a _
    simp
  rw [hfilter]
  apply take_range'
  have hB : BLOCK_SIZE = 1024 := rfl
  rw [hB]
  omega

theorem blank_add (data : List Nat) (hd : data.length ≤ 245 * 1024) :
    add_file create_disk nameF extEXT data =
      some (finalDisk create_disk nameF extEXT data) := by
  unfold add_file
  rw [add_file_run_ok]
  · rw [numFreeBlocks_blank]
    have hB : BLOCK_SIZE = 1024 := rfl
    rw [hB]
    omega
  · rw [blank_fbs data hd, freeSlots_blank, List.length_range', List.length_range]
    have := blankG_le16 data hd
    unfold blankG at this
    omega

theorem blank_planned_facts (data : List Nat) (hd : data.length ≤ 245 * 1024) :
    groupCount (List.range' 2 (blankNB data)).length = blankG data ∧
    blankG data ≤ (List.range 64).length := by
  constructor
  · rw [List.length_range']
    rfl
  · rw [List.length_range]
    have := blankG_le16 data hd
    omega

theorem blank_dir_claimed (data : List Nat) (hd : data.length ≤ 245 * 1024) (j : Nat)
    (hj : j < blankG data) :
    dirEntry (finalDisk create_disk nameF extEXT data) j =
      mkEntry (padTo nameF 8) (padTo extEXT 3) j (min (recordsOf data - j * 128) 128)
        (((List.range' 2 (blankNB data)).drop (16 * j)).take 16) := by
  obtain ⟨hgc, hle⟩ := blank_planned_facts data hd
  unfold finalDisk
  rw [blank_fbs data hd, freeSlots_blank, List.length_range']
  have hgc' : groupCount (blankNB data) = blankG data := rfl
  rw [hgc']
  have hlenPS := plannedEntries_length (padTo nameF 8) (padTo extEXT 3) (recordsOf data)
    (blankG data) (List.range 64) (List.range' 2 (blankNB data)) 0 hgc hle
  have hget := plannedEntries_getElem (padTo nameF 8) (padTo extEXT 3) (recordsOf data)
    (blankG data) (List.range 64) (List.range' 2 (blankNB data)) 0 j hj hgc hle
    (by rw [hlenPS]; exact hj)
    (by rw [List.length_range]; have := blankG_le16 data hd; omega)
  rw [List.getElem_range, Nat.zero_add] at hget
  apply dirEntry_appliedEntries_of_mem
  · exact hget ▸ List.getElem_mem _
  · rw [plannedEntries_fst _ _ _ _ _ _ _ hgc hle, List.take_range]
    exact List.nodup_range _
  · apply length_mkEntry
    · exact length_padTo _ _
    · exact length_padTo _ _
    · rw [List.length_take]
      omega

theorem blank_dir_unclaimed (data : List Nat) (hd : data.length ≤ 245 * 1024) (j : Nat)
    (hj1 : blankG data ≤ j) (hj2 : j < DIR_ENTRIES) :
    dirEntry (finalDisk create_disk nameF extEXT data) j = dirEntry create_disk j := by
  obtain ⟨hgc, hle⟩ := blank_planned_facts data hd
  unfold finalDisk
  rw [blank_fbs data hd, freeSlots_blank, List.length_range']
  have hgc' : groupCount (blankNB data) = blankG data := rfl
  rw [hgc']
  rw [dirEntry_appliedEntries_of_not_mem]
  · apply dirEntry_congr
    intro t ht
    exact writeDataBlocksAux_dir _ _ _ _ _
      (fun b hb => (List.mem_range'_1.1 hb).1)
      (slotOff_add_lt_data hj2 ht)
  · intro p hp
    have hfst : p.1 ∈ (List.range 64).take (blankG data) := by
      rw [← plannedEntries_fst _ _ _ _ _ _ _ hgc hle]
      exact List.mem_map_of_mem Prod.fst hp
    rw [List.take_range] at hfst
    have := List.mem_range.1 hfst
    omega

theorem blank_dir_unclaimed_empty (data : List Nat) (hd : data.length ≤ 245 * 1024) (j : Nat)
    (hj1 : blankG data ≤ j) (hj2 : j < DIR_ENTRIES) :
    (dirEntry (finalDisk create_disk nameF extEXT data) j).getD 0 0 = EMPTY_ENTRY := by
  rw [blank_dir_unclaimed data hd j hj1 hj2, dirEntry_getD _ _ _ (by decide),
    Nat.add_zero]
  exact create_disk_slot0 j hj2

theorem blockOffset_ge_data (b : Nat) : DATA_OFFSET ≤ blockOffset b :=
  Nat.le_add_right _ _

theorem blank_read_block (data : List Nat) (hd : data.length ≤ 245 * 1024) (k : Nat)
    (hk : k < blankNB data) :
    readBytes (finalDisk create_disk nameF extEXT data) (blockOffset (2 + k)) BLOCK_SIZE =
      chunkAt data k := by
  obtain ⟨hgc, hle⟩ := blank_planned_facts data hd
  unfold finalDisk
  rw [blank_fbs data hd, freeSlots_blank, List.length_range']
  have hgc' : groupCount (blankNB data) = blankG data := rfl
  rw [hgc']
  have houter : readBytes
      (appliedEntries (writeDataBlocksAux data create_disk (List.range' 2 (blankNB data)) 0)
        (plannedEntries (padTo nameF 8) (padTo extEXT 3) (recordsOf data) (blankG data)
          (List.range 64) (List.range' 2 (blankNB data)) 0))
      (blockOffset (2 + k)) BLOCK_SIZE =
      readBytes (writeDataBlocksAux data create_disk (List.range' 2 (blankNB data)) 0)
        (blockOffset (2 + k)) BLOCK_SIZE := by
    apply readBytes_congr
    intro t _
    apply appliedEntries_dataRegion
    · intro p hp
      have hfst : p.1 ∈ (List.range 64).take (blankG data) := by
        rw [← plannedEntries_fst _ _ _ _ _ _ _ hgc hle]
        exact List.mem_map_of_mem Prod.fst hp
      rw [List.take_range] at hfst
      have := List.mem_range.1 hfst
      show p.1 < DIR_ENTRIES
      have h64 : DIR_ENTRIES = 64 := rfl
      omega
    · exact le_trans (blockOffset_ge_data _) (Nat.le_add_right _ _)
  rw [houter]
  have hk' : k < (List.range' 2 (blankNB data)).length := by
    rw [List.length_range']
    exact hk
  have hget : (List.range' 2 (blankNB data)).get ⟨k, hk'⟩ = 2 + k := by
    simp [List.get_eq_getElem, List.getElem_range']
  have := readBlock_wdb data (List.range' 2 (blankNB data)) create_disk k hk'
    (List.nodup_range' _ _) (fun b hb => (List.mem_range'_1.1 hb).1)
  rw [hget] at this
  exact this

theorem blank_matching (data : List Nat) (hd : data.length ≤ 245 * 1024) :
    matchingExtents (finalDisk create_disk nameF extEXT data)
        (padTo nameF 8) (padTo extEXT 3) =
      (List.range (blankG data)).map (fun j =>
        (j, min (recordsOf data - j * 128) 128,
          ((List.range' 2 (blankNB data)).drop (16 * j)).take 16)) := by
  unfold matchingExtents
  have hsplit : List.range DIR_ENTRIES =
      List.range (blankG data) ++
        (List.range (64 - blankG data)).map (fun x => blankG data + x) := by
    rw [← List.range_add]
    congr 1
    have := blankG_le16 data hd
    show DIR_ENTRIES = _
    have h64 : DIR_ENTRIES = 64 := rfl
    omega
  rw [hsplit, List.filterMap_append]
  have h2 : ((List.range (64 - blankG data)).map (fun x => blankG data + x)).filterMap
      (fun i =>
        if isOccupied (dirEntry (finalDisk create_disk nameF extEXT data) i) then
          if ((dirEntry (finalDisk create_disk nameF extEXT data) i).drop 1).take 8 =
                padTo nameF 8 ∧
              ((dirEntry (finalDisk create_disk nameF extEXT data) i).drop 9).take 3 =
                padTo extEXT 3 then
            some (extentOf (dirEntry (finalDisk create_disk nameF extEXT data) i),
              (dirEntry (finalDisk create_disk nameF extEXT data) i).getD 15 0,
              entryBlocks (dirEntry (finalDisk create_disk nameF extEXT data) i))
          else none
        else none) = [] := by
    rw [List.filterMap_eq_nil_iff]
    intro a ha
    rw [List.mem_map] at ha
    obtain ⟨x, hx, rfl⟩ := ha
    rw [List.mem_range] at hx
    have hocc : isOccupied
        (dirEntry (finalDisk create_disk nameF extEXT data) (blankG data + x)) = false := by
      unfold isOccupied
      rw [blank_dir_unclaimed_empty data hd _ (Nat.le_add_right _ _)
        (by show _ < DIR_ENTRIES; have h64 : DIR_ENTRIES = 64 := rfl; omega)]
      simp [EMPTY_ENTRY]
    rw [hocc]
    simp
  rw [h2, List.append_nil]
  have h1 : ∀ j ∈ List.range (blankG data),
      (if isOccupied (dirEntry (finalDisk create_disk nameF extEXT data) j) then
        if ((dirEntry (finalDisk create_disk nameF extEXT data) j).drop 1).take 8 =
              padTo nameF 8 ∧
            ((dirEntry (finalDisk create_disk nameF extEXT data) j).drop 9).take 3 =
              padTo extEXT 3 then
          some (extentOf (dirEntry (finalDisk create_disk nameF extEXT data) j),
            (dirEntry (finalDisk create_disk nameF extEXT data) j).getD 15 0,
            entryBlocks (dirEntry (finalDisk create_disk nameF extEXT data) j))
        else none
      else none) =
      some (j, min (recordsOf data - j * 128) 128,
        ((List.range' 2 (blankNB data)).drop (16 * j)).take 16) := by
    intro j hj
    rw [List.mem_range] at hj
    rw [blank_dir_claimed data hd j hj]
    have hblk_le : (((List.range' 2 (blankNB data)).drop (16 * j)).take 16).length ≤ 16 := by
      rw [List.length_take]
      omega
    have hblk_pos : ∀ b ∈ ((List.range' 2 (blankNB data)).drop (16 * j)).take 16, 0 < b := by
      intro b hb
      have := (List.mem_range'_1.1 (List.mem_of_mem_drop (List.mem_of_mem_take hb))).1
      omega
    rw [if_pos]
    · rw [if_pos]
      · rw [mkEntry_getD_15 _ _ _ _ _ (length_padTo _ _) (length_padTo _ _),
          entryBlocks_mkEntry _ _ _ _ _ (length_padTo _ _) (length_padTo _ _)
            hblk_le hblk_pos]
        have hdec : extentOf (mkEntry (padTo nameF 8) (padTo extEXT 3) j
            (min (recordsOf data - j * 128) 128)
            (((List.range' 2 (blankNB data)).drop (16 * j)).take 16)) = j := by
          unfold extentOf
          rw [mkEntry_getD_12 _ _ _ _ _ (length_padTo _ _) (length_padTo _ _),
            mkEntry_getD_14 _ _ _ _ _ (length_padTo _ _) (length_padTo _ _)]
          exact extent_decode_small j (by have := blankG_le16 data hd; omega)
        rw [hdec]
      · exact ⟨mkEntry_name _ _ _ _ _ (length_padTo _ _),
          mkEntry_ext _ _ _ _ _ (length_padTo _ _) (length_padTo _ _)⟩
    · unfold isOccupied
      rw [mkEntry_getD_zero]
      decide
  rw [List.filterMap_congr h1]
  have : (fun j => some ((j, min (recordsOf data - j * 128) 128,
      ((List.range' 2 (blankNB data)).drop (16 * j)).take 16))) =
      some ∘ (fun j => (j, min (recordsOf data - j * 128) 128,
        ((List.range' 2 (blankNB data)).drop (16 * j)).take 16)) := rfl
  rw [this, List.filterMap_eq_map]

theorem getLastD_map_range {α : Type} (g : Nat → α) (G : Nat) (hG : 1 ≤ G) (z : α) :
    ((List.range G).map g).getLastD z = g (G - 1) := by
  rw [List.getLastD_eq_getLast?, List.getLast?_eq_getElem?, List.length_map,
    List.length_range,
    List.getElem?_eq_getElem (by rw [List.length_map, List.length_range]; omega)]
  simp [List.getElem_range]

theorem blank_len_le (d : List Nat) (hd : d.length ≤ 245 * 1024) :
    d.length ≤ blankNB d * BLOCK_SIZE := by
  unfold blankNB
  have hB : BLOCK_SIZE = 1024 := rfl
  rw [hB]
  omega

theorem blank_raw (d : List Nat) (hd : d.length ≤ 245 * 1024) :
    ((List.range (blankG d)).map (fun j => (j, min (recordsOf d - j * 128) 128,
        ((List.range' 2 (blankNB d)).drop (16 * j)).take 16))).flatMap
      (fun t => t.2.2.flatMap (fun b =>
        readBytes (finalDisk create_disk nameF extEXT d) (blockOffset b) BLOCK_SIZE)) =
      d ++ List.replicate (blankNB d * BLOCK_SIZE - d.length) 0x1A := by
  rw [List.flatMap_map, List.flatMap_def]
  have hmm : (List.range (blankG d)).map (fun j =>
      (((List.range' 2 (blankNB d)).drop (16 * j)).take 16).flatMap (fun b =>
        readBytes (finalDisk create_disk nameF extEXT d) (blockOffset b) BLOCK_SIZE)) =
      ((List.range (blankG d)).map (fun j =>
        ((List.range' 2 (blankNB d)).drop (16 * j)).take 16)).map (fun x =>
          x.flatMap (fun b =>
            readBytes (finalDisk create_disk nameF extEXT d) (blockOffset b) BLOCK_SIZE)) := by
    rw [List.map_map]
    rfl
  rw [hmm, ← flatMap_flatten]
  have hfg : ((List.range (blankG d)).map (fun t =>
      ((List.range' 2 (blankNB d)).drop (16 * t)).take 16)).flatten =
      List.range' 2 (blankNB d) := by
    have h := flatten_groups (List.range' 2 (blankNB d))
    rw [List.length_range'] at h
    exact h
  rw [hfg, List.range'_eq_map_range, List.flatMap_map, List.flatMap_def,
    List.map_congr_left (fun k hk =>
      blank_read_block d hd k (List.mem_range.1 hk)),
    ← List.flatMap_def, chunks_flat d (blankNB d),
    List.take_of_length_le (blank_len_le d hd), min_eq_left (blank_len_le d hd)]

theorem blank_take (d : List Nat) (hd : d.length ≤ 245 * 1024) :
    (d ++ List.replicate (blankNB d * BLOCK_SIZE - d.length) 0x1A).take
      (((blankG d - 1) * 128 + min (recordsOf d - (blankG d - 1) * 128) 128) * SECTOR_SIZE) =
      d ++ List.replicate (recordsOf d * 128 - d.length) 0x1A := by
  have hS : SECTOR_SIZE = 128 := rfl
  have hB : BLOCK_SIZE = 1024 := rfl
  have htr : ((blankG d - 1) * 128 + min (recordsOf d - (blankG d - 1) * 128) 128) *
      SECTOR_SIZE = recordsOf d * 128 := by
    unfold blankG groupCount blankNB recordsOf
    rw [hS, hB]
    omega
  rw [htr]
  have hk : recordsOf d * 128 = d.length + (recordsOf d * 128 - d.length) := by
    unfold recordsOf
    rw [hS]
    omega
  rw [hk, List.take_append, List.take_replicate]
  congr 2
  unfold recordsOf blankNB
  rw [hS, hB]
  omega

/-- Round-trip on a fresh image: `extract_file` after a successful `add_file`
returns the stored bytes with their trailing 0x1A bytes stripped. -/
theorem roundtrip_blank (d : List Nat) (hd : d.length ≤ 245 * 1024) :
    (add_file create_disk nameF extEXT d).bind
      (fun dk => extract_file dk nameF extEXT) = some (stripTrailing 0x1A d) := by
  rw [blank_add d hd, Option.some_bind]
  unfold extract_file
  rw [blank_matching d hd]
  rw [if_neg (by
    simp only [ne_eq, List.map_eq_nil_iff, List.range_eq_nil]
    have := blankG_pos d
    omega)]
  have hsorted : sortByFst ((List.range (blankG d)).map (fun j =>
      (j, min (recordsOf d - j * 128) 128,
        ((List.range' 2 (blankNB d)).drop (16 * j)).take 16))) =
      (List.range (blankG d)).map (fun j =>
        (j, min (recordsOf d - j * 128) 128,
          ((List.range' 2 (blankNB d)).drop (16 * j)).take 16)) := by
    apply sortByFst_sorted
    rw [List.pairwise_map]
    exact (List.pairwise_lt_range _).imp (fun h => le_of_lt h)
  rw [hsorted, blank_raw d hd, getLastD_map_range _ _ (blankG_pos d),
    List.length_map, List.length_range]
  rw [blank_take d hd, stripTrailing_append_pad]

theorem blank_occupied_filter (data : List Nat) (hd : data.length ≤ 245 * 1024) :
    (List.range DIR_ENTRIES).filter (fun j =>
      isOccupied (dirEntry (finalDisk create_disk nameF extEXT data) j)) =
      List.range (blankG data) := by
  have hsplit : List.range DIR_ENTRIES =
      List.range (blankG data) ++
        (List.range (64 - blankG data)).map (fun x => blankG data + x) := by
    rw [← List.range_add]
    congr 1
    have := blankG_le16 data hd
    show DIR_ENTRIES = _
    have h64 : DIR_ENTRIES = 64 := rfl
    omega
  rw [hsplit, List.filter_append]
  have h1 : (List.range (blankG data)).filter (fun j =>
      isOccupied (dirEntry (finalDisk create_disk nameF extEXT data) j)) =
      List.range (blankG data) := by
    apply List.filter_eq_self.2
    intro j hj
    rw [blank_dir_claimed data hd j (List.mem_range.1 hj)]
    unfold isOccupied
    rw [mkEntry_getD_zero]
    decide
  have h2 : ((List.range (64 - blankG data)).map (fun x => blankG data + x)).filter
      (fun j => isOccupied (dirEntry (finalDisk create_disk nameF extEXT data) j)) = [] := by
    rw [List.filter_eq_nil_iff]
    intro a ha
    rw [List.mem_map] at ha
    obtain ⟨x, hx, rfl⟩ := ha
    rw [List.mem_range] at hx
    unfold isOccupied
    rw [blank_dir_unclaimed_empty data hd _ (Nat.le_add_right _ _)
      (by show _ < DIR_ENTRIES; have h64 : DIR_ENTRIES = 64 := rfl; omega)]
    simp [EMPTY_ENTRY]
  rw [h1, h2, List.append_nil]

theorem extent_roundtrip_parts :
    ∀ q < 64, ∀ r < 32,
      ((32 * q + r) &&& 0x1F) + ((((32 * q + r) >>> 5) &&& 0x3F) <<< 5) = 32 * q + r := by
  decide

theorem extent_roundtrip_lt (e : Nat) (he : e < 2048) :
    (e &&& 0x1F) + (((e >>> 5) &&& 0x3F) <<< 5) = e := by
  have h := extent_roundtrip_parts (e / 32) (by omega) (e % 32) (by omega)
  have he2 : 32 * (e / 32) + e % 32 = e := by omega
  rw [he2] at h
  exact h

/-! ### The claims -/

/-- Claim **C1**: for every byte buffer `d` with `0 ≤ len(d) ≤ (TOTAL_BLOCKS-2)*BLOCK_SIZE`,
storing `d` on a freshly created blank image under name "F" / extension "EXT"
succeeds, and a subsequent retrieve returns exactly `d` with its trailing 0x1A
bytes stripped. -/
theorem claim_C1 (d : List Nat) (hd : d.length ≤ (TOTAL_BLOCKS - 2) * BLOCK_SIZE) :
    (add_file create_disk nameF extEXT d).bind
      (fun dk => extract_file dk nameF extEXT) = some (stripTrailing 0x1A d) :=
  roundtrip_blank d (by
    have h : (TOTAL_BLOCKS - 2) * BLOCK_SIZE = 245 * 1024 := by decide
    omega)

theorem claim_C1_witness :
    ([1, 2, 3] : List Nat).length ≤ (TOTAL_BLOCKS - 2) * BLOCK_SIZE ∧
    (add_file create_disk nameF extEXT [1, 2, 3]).bind
      (fun dk => extract_file dk nameF extEXT) = some (stripTrailing 0x1A [1, 2, 3]) :=
  ⟨by decide, claim_C1 [1, 2, 3] (by decide)⟩

/-- Claim **C3**: an input needing exactly 17 allocation blocks produces exactly 2
directory entries: the first with 16 block numbers and record count 128, the
second with 1 block number and the remaining record count. -/
theorem claim_C3 (d : List Nat) (h1 : 16 * BLOCK_SIZE < d.length)
    (h2 : d.length ≤ 17 * BLOCK_SIZE) :
    ∃ disk', add_file create_disk nameF extEXT d = some disk' ∧
      ((List.range DIR_ENTRIES).filter (fun j => isOccupied (dirEntry disk' j))).length = 2 ∧
      (entryBlocks (dirEntry disk' 0)).length = 16 ∧
      (dirEntry disk' 0).getD 15 0 = 128 ∧
      (entryBlocks (dirEntry disk' 1)).length = 1 ∧
      (dirEntry disk' 1).getD 15 0 = (d.length + SECTOR_SIZE - 1) / SECTOR_SIZE - 128 := by
  have hB : BLOCK_SIZE = 1024 := rfl
  have hS : SECTOR_SIZE = 128 := rfl
  rw [hB] at h1 h2
  have hd : d.length ≤ 245 * 1024 := by omega
  have hNB : blankNB d = 17 := by
    unfold blankNB
    rw [hB]
    omega
  have hG : blankG d = 2 := by
    unfold blankG groupCount
    rw [hNB]
  refine ⟨finalDisk create_disk nameF extEXT d, blank_add d hd, ?_, ?_, ?_, ?_, ?_⟩
  · rw [blank_occupied_filter d hd, hG, List.length_range]
  · rw [blank_dir_claimed d hd 0 (by omega),
      entryBlocks_mkEntry _ _ _ _ _ (length_padTo _ _) (length_padTo _ _)
        (by rw [List.length_take]; omega)
        (fun b hb => by
          have := (List.mem_range'_1.1 (List.mem_of_mem_drop (List.mem_of_mem_take hb))).1
          omega)]
    rw [hNB, Nat.mul_zero, List.drop_zero, take_range' 16 2 17 (by omega),
      List.length_range']
  · rw [blank_dir_claimed d hd 0 (by omega),
      mkEntry_getD_15 _ _ _ _ _ (length_padTo _ _) (length_padTo _ _)]
    unfold recordsOf
    rw [hS]
    omega
  · rw [blank_dir_claimed d hd 1 (by omega),
      entryBlocks_mkEntry _ _ _ _ _ (length_padTo _ _) (length_padTo _ _)
        (by rw [List.length_take]; omega)
        (fun b hb => by
          have := (List.mem_range'_1.1 (List.mem_of_mem_drop (List.mem_of_mem_take hb))).1
          omega)]
    rw [hNB]
    decide
  · rw [blank_dir_claimed d hd 1 (by omega),
      mkEntry_getD_15 _ _ _ _ _ (length_padTo _ _) (length_padTo _ _)]
    unfold recordsOf
    rw [hS]
    omega

theorem claim_C3_witness :
    16 * BLOCK_SIZE < (List.replicate 16385 (0 : Nat)).length ∧
    (List.replicate 16385 (0 : Nat)).length ≤ 17 * BLOCK_SIZE ∧
    (∃ disk', add_file create_disk nameF extEXT (List.replicate 16385 (0 : Nat)) =
        some disk' ∧
      ((List.range DIR_ENTRIES).filter (fun j => isOccupied (dirEntry disk' j))).length = 2 ∧
      (entryBlocks (dirEntry disk' 0)).length = 16 ∧
      (dirEntry disk' 0).getD 15 0 = 128 ∧
      (entryBlocks (dirEntry disk' 1)).length = 1 ∧
      (dirEntry disk' 1).getD 15 0 =
        ((List.replicate 16385 (0 : Nat)).length + SECTOR_SIZE - 1) / SECTOR_SIZE - 128) :=
  ⟨by rw [List.length_replicate]; decide,
   by rw [List.length_replicate]; decide,
   claim_C3 _ (by rw [List.length_replicate]; decide)
     (by rw [List.length_replicate]; decide)⟩

/-- Claim **C4**: whenever an input needs more allocation blocks than are free on the
image, `add_file` reports insufficient space and the image is byte-for-byte
unchanged (the returned buffer is the input buffer itself, and nothing is
persisted). -/
theorem claim_C4 (disk : Disk) (n0 e0 data : List Nat)
    (h : numFreeBlocks disk < (data.length + BLOCK_SIZE - 1) / BLOCK_SIZE) :
    add_file_run disk n0 e0 data = (AddOutcome.insufficientSpace, disk) ∧
    add_file disk n0 e0 data = none := by
  have h1 := add_file_run_insufficient disk n0 e0 data h
  refine ⟨h1, ?_⟩
  unfold add_file
  rw [h1]

theorem claim_C4_witness :
    numFreeBlocks create_disk <
      ((List.replicate 250881 (0 : Nat)).length + BLOCK_SIZE - 1) / BLOCK_SIZE ∧
    (add_file_run create_disk nameF extEXT (List.replicate 250881 (0 : Nat)) =
        (AddOutcome.insufficientSpace, create_disk) ∧
      add_file create_disk nameF extEXT (List.replicate 250881 (0 : Nat)) = none) :=
  ⟨by rw [List.length_replicate]; decide,
   claim_C4 create_disk nameF extEXT _ (by rw [List.length_replicate]; decide)⟩

/-- Claim **C6** (counterexample): the claim holds for 13-bit extent numbers is false —
extent number 2048 (< 8192) encodes into the entry fields and decodes back to 0. -/
theorem claim_C6_counterexample :
    (2048 : Nat) < 8192 ∧
    extentOf (mkEntry (padTo nameF 8) (padTo extEXT 3) 2048 0 []) ≠ 2048 := by
  decide

/-- Claim **C6** (amended): for every extent number `e < 2048` (11 bits: 5 low + 6
high), encoding into the entry's extent fields as on the write path and
decoding as on the read path recovers `e`. -/
theorem claim_C6 (e : Nat) (he : e < 2048) :
    extentOf (mkEntry (padTo nameF 8) (padTo extEXT 3) e 0 []) = e := by
  unfold extentOf
  rw [mkEntry_getD_12 _ _ _ _ _ (length_padTo _ _) (length_padTo _ _),
    mkEntry_getD_14 _ _ _ _ _ (length_padTo _ _) (length_padTo _ _)]
  exact extent_roundtrip_lt e he

theorem claim_C6_witness :
    (5 : Nat) < 2048 ∧
    extentOf (mkEntry (padTo nameF 8) (padTo extEXT 3) 5 0 []) = 5 :=
  ⟨by decide, claim_C6 5 (by decide)⟩

/-- Claim **C7**: the derived layout constants. -/
theorem claim_C7 : DIR_OFFSET = 6656 ∧ DATA_OFFSET = 8704 ∧ TOTAL_BLOCKS = 247 := by
  decide

/-- Claim **C8** (counterexample): storing a zero-length input on a blank image does
write a directory entry (slot 0 becomes occupied), and a subsequent retrieve
succeeds (returning the empty buffer) rather than failing with not-found. -/
theorem claim_C8_counterexample :
    isOccupied (dirEntry ((add_file_run create_disk nameF extEXT []).2) 0) = true ∧
    (add_file create_disk nameF extEXT []).bind
      (fun dk => extract_file dk nameF extEXT) ≠ none := by
  decide

/-- Claim **C8** (amended): storing a zero-length input on a blank image reports
success and writes one directory entry with record count 0 referencing one data
block (block 2, filled with the 0x1A pad byte); a subsequent retrieve succeeds
and returns the empty buffer. -/
theorem claim_C8 :
    (add_file_run create_disk nameF extEXT []).1 = AddOutcome.ok ∧
    isOccupied (dirEntry ((add_file_run create_disk nameF extEXT []).2) 0) = true ∧
    (dirEntry ((add_file_run create_disk nameF extEXT []).2) 0).getD 15 0 = 0 ∧
    entryBlocks (dirEntry ((add_file_run create_disk nameF extEXT []).2) 0) = [2] ∧
    ((add_file_run create_disk nameF extEXT []).2) (blockOffset 2) = 0x1A ∧
    (add_file create_disk nameF extEXT []).bind
      (fun dk => extract_file dk nameF extEXT) = some [] := by
  decide

/-- Claim **C10**: every block number returned by `find_free_blocks` lies between 2
and `TOTAL_BLOCKS - 1` inclusive, so it fits in the single byte of a directory
entry's block list. -/
theorem claim_C10 (d : Disk) (count b : Nat) (h : b ∈ find_free_blocks d count) :
    2 ≤ b ∧ b ≤ TOTAL_BLOCKS - 1 ∧ b < 256 := by
  obtain ⟨h1, h2, _⟩ := mem_find_free_blocks h
  have h247 : TOTAL_BLOCKS = 247 := by decide
  omega

theorem claim_C10_witness :
    2 ∈ find_free_blocks create_disk 1 ∧
    (2 ≤ 2 ∧ 2 ≤ TOTAL_BLOCKS - 1 ∧ 2 < 256) :=
  ⟨by decide, claim_C10 create_disk 1 2 (by decide)⟩

/-! ### C2: the directory-full failure path -/

/-- Running `add_file` on `disk63` (63 occupied slots, one free) with a
17-block input: the first extent group claims slot 63, then the loop fails
with `directoryFull`, leaving the first entry written in the in-memory
buffer. -/
theorem disk63_run :
    add_file_run disk63 nameF extEXT (List.replicate 16385 0) =
      (AddOutcome.directoryFull,
        writeRange
          (writeDataBlocksAux (List.replicate 16385 0) disk63 (2 :: List.range' 3 16) 0)
          (slotOff 63) ENTRY_SIZE
          (mkEntry (padTo nameF 8) (padTo extEXT 3) 0
            (min (129 - 0 * 128) 128) ((2 :: List.range' 3 16).take 16))) := by
  have hbn : ((List.replicate 16385 (0 : Nat)).length + BLOCK_SIZE - 1) / BLOCK_SIZE = 17 := by
    rw [List.length_replicate]
    decide
  have hrec : ((List.replicate 16385 (0 : Nat)).length + SECTOR_SIZE - 1) / SECTOR_SIZE =
      129 := by
    rw [List.length_replicate]
    decide
  have hffb : find_free_blocks disk63 17 = 2 :: List.range' 3 16 := by decide
  simp only [add_file_run, hbn, hrec, hffb, List.length_cons, List.length_range']
  rw [if_neg (by omega)]
  have hg17 : groupCount (16 + 1) = 2 := by decide
  rw [hg17]
  have hblocks2 : ∀ b ∈ 2 :: List.range' 3 16, 2 ≤ b := by
    intro b hb
    rcases List.mem_cons.1 hb with rfl | hb'
    · omega
    · have := (List.mem_range'_1.1 hb').1
      omega
  have hfsD1 : freeSlots
      (writeDataBlocksAux (List.replicate 16385 0) disk63 (2 :: List.range' 3 16) 0) =
      63 :: [] := by
    rw [freeSlots_wdb _ _ _ _ hblocks2]
    decide
  simp only [writeExtentsAux, find_free_dir_entry_eq, hfsD1, List.head?_cons]
  have hfsD2 : freeSlots (writeRange
      (writeDataBlocksAux (List.replicate 16385 0) disk63 (2 :: List.range' 3 16) 0)
      (slotOff 63) ENTRY_SIZE
      (mkEntry (padTo nameF 8) (padTo extEXT 3) 0
        (min (129 - 0 * 128) 128) ((2 :: List.range' 3 16).take 16))) = [] :=
    freeSlots_writeEntry hfsD1 (by rw [mkEntry_getD_zero]; decide)
  simp only [hfsD2, List.head?_nil]

/-- Claim **C2** (counterexample): `add_file` does not validate directory-slot
availability for all extent groups up front.  On an image with exactly one free
directory slot and a 17-block (two-group) input, the run fails with
`directoryFull` after having already written the first extent's directory entry
into the buffer: the previously-free slot 63 no longer carries the empty
sentinel. -/
theorem claim_C2_counterexample :
    (add_file_run disk63 nameF extEXT (List.replicate 16385 0)).1 =
      AddOutcome.directoryFull ∧
    disk63 (slotOff 63) = EMPTY_ENTRY ∧
    ((add_file_run disk63 nameF extEXT (List.replicate 16385 0)).2) (slotOff 63) = 0 := by
  have h1 := congrArg Prod.fst disk63_run
  have h2 := congrArg (fun p => p.2 (slotOff 63)) disk63_run
  simp only at h1 h2
  refine ⟨h1, by decide, ?_⟩
  rw [h2, writeRange_in _ _ _ _ _ (Nat.le_refl _) (Nat.lt_add_of_pos_right (by decide)),
    Nat.sub_self, mkEntry_getD_zero]

/-- Claim **C2** (amended): `add_file` may fail at a later extent group after writing
earlier groups' directory entries into the in-memory buffer, but the image file
is overwritten only after every group succeeds, so whenever the run fails the
persisted image is left unchanged (`add_file` yields no new image). -/
theorem claim_C2 (disk : Disk) (n0 e0 data : List Nat)
    (h : (add_file_run disk n0 e0 data).1 ≠ AddOutcome.ok) :
    add_file disk n0 e0 data = none := by
  unfold add_file
  rcases hrun : add_file_run disk n0 e0 data with ⟨o, dk⟩
  rw [hrun] at h
  cases o
  · exact absurd rfl h
  · rfl
  · rfl

theorem claim_C2_witness :
    (add_file_run disk63 nameF extEXT (List.replicate 16385 0)).1 ≠ AddOutcome.ok ∧
    add_file disk63 nameF extEXT (List.replicate 16385 0) = none :=
  ⟨by rw [disk63_run]; decide,
   claim_C2 _ _ _ _ (by rw [disk63_run]; decide)⟩

/-- Claim **C9**: on every successful `add_file` run, only the data blocks it
allocated and the directory slots it claimed (the first free slots, one per
16-block group) are modified: every byte of the reserved system area, of every
directory slot not claimed by this call, and of every data block not allocated
by this call is unchanged. -/
theorem claim_C9 (disk : Disk) (n0 e0 data : List Nat) (disk' : Disk)
    (h : add_file_run disk n0 e0 data = (AddOutcome.ok, disk')) :
    (∀ a, a < DIR_OFFSET → disk' a = disk a) ∧
    (∀ j, j < DIR_ENTRIES →
      j ∉ (freeSlots disk).take (groupCount (fbsOf disk data).length) →
      ∀ t, t < ENTRY_SIZE → disk' (slotOff j + t) = disk (slotOff j + t)) ∧
    (∀ b, 2 ≤ b → b ∉ fbsOf disk data →
      ∀ t, t < BLOCK_SIZE → disk' (blockOffset b + t) = disk (blockOffset b + t)) := by
  have hadd : add_file disk n0 e0 data = some disk' := by
    unfold add_file
    rw [h]
  obtain ⟨hbn, hg, heq⟩ := add_file_ok_inv disk n0 e0 data disk' hadd
  subst heq
  have hfst : (plannedEntries (padTo n0 8) (padTo e0 3) (recordsOf data)
      (groupCount (fbsOf disk data).length) (freeSlots disk) (fbsOf disk data) 0).map
        Prod.fst =
      (freeSlots disk).take (groupCount (fbsOf disk data).length) :=
    plannedEntries_fst _ _ _ _ _ _ _ rfl hg
  have hfbs2 : ∀ b ∈ fbsOf disk data, 2 ≤ b := fun b hb => (mem_find_free_blocks hb).1
  have hslots64 : ∀ p ∈ plannedEntries (padTo n0 8) (padTo e0 3) (recordsOf data)
      (groupCount (fbsOf disk data).length) (freeSlots disk) (fbsOf disk data) 0,
      p.1 < DIR_ENTRIES := by
    intro p hp
    have hpmem : p.1 ∈ (freeSlots disk).take (groupCount (fbsOf disk data).length) :=
      hfst ▸ List.mem_map_of_mem Prod.fst hp
    exact (mem_freeSlots (List.mem_of_mem_take hpmem)).1
  refine ⟨?_, ?_, ?_⟩
  · intro a ha
    unfold finalDisk
    have e1 : appliedEntries
        (writeDataBlocksAux data disk (fbsOf disk data) 0)
        (plannedEntries (padTo n0 8) (padTo e0 3) (recordsOf data)
          (groupCount (fbsOf disk data).length) (freeSlots disk) (fbsOf disk data) 0) a =
        writeDataBlocksAux data disk (fbsOf disk data) 0 a := by
      apply appliedEntries_out
      intro p hp
      rintro ⟨hc1, _⟩
      rw [slotOff_eq] at hc1
      have hDir : DIR_OFFSET = 6656 := by decide
      rw [hDir] at ha
      omega
    have e2 : writeDataBlocksAux data disk (fbsOf disk data) 0 a = disk a := by
      apply writeDataBlocksAux_dir _ _ _ _ _ hfbs2
      have hD : DATA_OFFSET = 8704 := by decide
      have hDir : DIR_OFFSET = 6656 := by decide
      omega
    exact e1.trans e2
  · intro j hj hnotin t ht
    unfold finalDisk
    have e1 : appliedEntries
        (writeDataBlocksAux data disk (fbsOf disk data) 0)
        (plannedEntries (padTo n0 8) (padTo e0 3) (recordsOf data)
          (groupCount (fbsOf disk data).length) (freeSlots disk) (fbsOf disk data) 0)
        (slotOff j + t) =
        writeDataBlocksAux data disk (fbsOf disk data) 0 (slotOff j + t) := by
      apply appliedEntries_out
      intro p hp
      have hpmem : p.1 ∈ (freeSlots disk).take (groupCount (fbsOf disk data).length) :=
        hfst ▸ List.mem_map_of_mem Prod.fst hp
      have hne : j ≠ p.1 := fun he => hnotin (he ▸ hpmem)
      exact slotRange_disjoint hne ht
    have e2 : writeDataBlocksAux data disk (fbsOf disk data) 0 (slotOff j + t) =
        disk (slotOff j + t) :=
      writeDataBlocksAux_dir _ _ _ _ _ hfbs2 (slotOff_add_lt_data hj ht)
    exact e1.trans e2
  · intro b hb hnotin t ht
    unfold finalDisk
    have e1 : appliedEntries
        (writeDataBlocksAux data disk (fbsOf disk data) 0)
        (plannedEntries (padTo n0 8) (padTo e0 3) (recordsOf data)
          (groupCount (fbsOf disk data).length) (freeSlots disk) (fbsOf disk data) 0)
        (blockOffset b + t) =
        writeDataBlocksAux data disk (fbsOf disk data) 0 (blockOffset b + t) := by
      apply appliedEntries_dataRegion _ _ _ hslots64
      exact le_trans (blockOffset_ge_data b) (Nat.le_add_right _ _)
    have e2 : writeDataBlocksAux data disk (fbsOf disk data) 0 (blockOffset b + t) =
        disk (blockOffset b + t) := by
      apply writeDataBlocksAux_out
      intro b' hb'
      exact blockRange_disjoint hb (hfbs2 b' hb') (fun he => hnotin (he ▸ hb')) ht
    exact e1.trans e2

theorem claim_C9_witness :
    (add_file_run create_disk nameF extEXT [1, 2, 3] =
      (AddOutcome.ok, (add_file_run create_disk nameF extEXT [1, 2, 3]).2)) ∧
    ((∀ a, a < DIR_OFFSET →
        (add_file_run create_disk nameF extEXT [1, 2, 3]).2 a = create_disk a) ∧
      (∀ j, j < DIR_ENTRIES →
        j ∉ (freeSlots create_disk).take
          (groupCount (fbsOf create_disk [1, 2, 3]).length) →
        ∀ t, t < ENTRY_SIZE →
          (add_file_run create_disk nameF extEXT [1, 2, 3]).2 (slotOff j + t) =
            create_disk (slotOff j + t)) ∧
      (∀ b, 2 ≤ b → b ∉ fbsOf create_disk [1, 2, 3] →
        ∀ t, t < BLOCK_SIZE →
          (add_file_run create_disk nameF extEXT [1, 2, 3]).2 (blockOffset b + t) =
            create_disk (blockOffset b + t))) :=
  have hpair : add_file_run create_disk nameF extEXT [1, 2, 3] =
      (AddOutcome.ok, (add_file_run create_disk nameF extEXT [1, 2, 3]).2) :=
    Prod.ext_iff.2 ⟨by decide, rfl⟩
  ⟨hpair, claim_C9 create_disk nameF extEXT [1, 2, 3] _ hpair⟩

/-! ### C5: allocation disjointness -/

theorem nodup_flatMap_of {f : Nat → List Nat} :
    ∀ l : List Nat, l.Nodup → (∀ i ∈ l, (f i).Nodup) →
      (∀ i ∈ l, ∀ j ∈ l, i ≠ j → List.Disjoint (f i) (f j)) →
      (l.flatMap f).Nodup := by
  intro l
  induction l with
  | nil => intros; simp
  | cons x l ih =>
    intro hnd h1 h2
    rw [List.flatMap_cons, List.nodup_append]
    refine ⟨h1 x (List.mem_cons_self _ _),
      ih (List.nodup_cons.1 hnd).2
        (fun i hi => h1 i (List.mem_cons_of_mem _ hi))
        (fun i hi j hj hij =>
          h2 i (List.mem_cons_of_mem _ hi) j (List.mem_cons_of_mem _ hj) hij), ?_⟩
    intro y hy hy'
    rw [List.mem_flatMap] at hy'
    obtain ⟨j, hj, hyj⟩ := hy'
    have hxj : x ≠ j := fun he => (List.nodup_cons.1 hnd).1 (he ▸ hj)
    exact h2 x (List.mem_cons_self _ _) j (List.mem_cons_of_mem _ hj) hxj hy hyj

theorem nodup_flatMap_inv {f : Nat → List Nat} :
    ∀ l : List Nat, (l.flatMap f).Nodup →
      (∀ i ∈ l, (f i).Nodup) ∧
      (∀ i ∈ l, ∀ j ∈ l, i ≠ j → List.Disjoint (f i) (f j)) := by
  intro l
  induction l with
  | nil => intro _; exact ⟨by simp, by simp⟩
  | cons x l ih =>
    intro hnd
    rw [List.flatMap_cons, List.nodup_append] at hnd
    obtain ⟨hx, hrest, hdisj⟩ := hnd
    obtain ⟨ih1, ih2⟩ := ih hrest
    constructor
    · intro i hi
      rcases List.mem_cons.1 hi with rfl | hi'
      · exact hx
      · exact ih1 i hi'
    · intro i hi j hj hij
      rcases List.mem_cons.1 hi with rfl | hi' <;> rcases List.mem_cons.1 hj with rfl | hj'
      · exact absurd rfl hij
      · exact fun y hy hyj => hdisj hy (List.mem_flatMap.2 ⟨j, hj', hyj⟩)
      · exact fun y hy hyj => hdisj hyj (List.mem_flatMap.2 ⟨i, hi', hy⟩)
      · exact ih2 i hi' j hj' hij

theorem group_disjoint {l : List Nat} (hnd : l.Nodup) {t t' : Nat} (hne : t ≠ t') :
    List.Disjoint ((l.drop (16 * t)).take 16) ((l.drop (16 * t')).take 16) := by
  intro x hx hx'
  obtain ⟨k, hk, hkx⟩ := List.mem_iff_getElem.1 hx
  obtain ⟨k', hk', hkx'⟩ := List.mem_iff_getElem.1 hx'
  rw [List.getElem_take, List.getElem_drop] at hkx hkx'
  have hk16 : k < 16 := by
    simp only [List.length_take, List.length_drop] at hk
    omega
  have hk16' : k' < 16 := by
    simp only [List.length_take, List.length_drop] at hk'
    omega
  have hidx := (List.Nodup.getElem_inj_iff hnd).1 (hkx.trans hkx'.symm)
  omega

theorem final_slotBlocks_claimed (disk : Disk) (n0 e0 data : List Nat)
    (hg : groupCount (fbsOf disk data).length ≤ (freeSlots disk).length)
    (t : Nat) (ht : t < groupCount (fbsOf disk data).length)
    (ht' : t < (freeSlots disk).length) :
    slotBlocks (finalDisk disk n0 e0 data) ((freeSlots disk)[t]) =
      ((fbsOf disk data).drop (16 * t)).take 16 := by
  have hfbs2 : ∀ b ∈ fbsOf disk data, 2 ≤ b := fun b hb => (mem_find_free_blocks hb).1
  have hget := plannedEntries_getElem (padTo n0 8) (padTo e0 3) (recordsOf data)
    (groupCount (fbsOf disk data).length) (freeSlots disk) (fbsOf disk data) 0 t ht rfl hg
    (by rw [plannedEntries_length _ _ _ _ _ _ _ rfl hg]; exact ht) ht'
  rw [Nat.zero_add] at hget
  have hent : dirEntry (finalDisk disk n0 e0 data) ((freeSlots disk)[t]) =
      mkEntry (padTo n0 8) (padTo e0 3) t (min (recordsOf data - t * 128) 128)
        (((fbsOf disk data).drop (16 * t)).take 16) := by
    unfold finalDisk
    apply dirEntry_appliedEntries_of_mem
    · exact hget ▸ List.getElem_mem _
    · rw [plannedEntries_fst _ _ _ _ _ _ _ rfl hg]
      exact (List.take_sublist _ _).nodup (freeSlots_nodup disk)
    · exact length_mkEntry _ _ _ _ _ (length_padTo _ _) (length_padTo _ _)
        (by rw [List.length_take]; omega)
  unfold slotBlocks
  rw [hent, if_pos (by unfold isOccupied; rw [mkEntry_getD_zero]; decide)]
  exact entryBlocks_mkEntry _ _ _ _ _ (length_padTo _ _) (length_padTo _ _)
    (by rw [List.length_take]; omega)
    (fun b hb => by
      have := hfbs2 b (List.mem_of_mem_drop (List.mem_of_mem_take hb))
      omega)

theorem final_slotBlocks_unclaimed (disk : Disk) (n0 e0 data : List Nat)
    (hg : groupCount (fbsOf disk data).length ≤ (freeSlots disk).length)
    (j : Nat) (hj : j < DIR_ENTRIES)
    (hnot : j ∉ (freeSlots disk).take (groupCount (fbsOf disk data).length)) :
    slotBlocks (finalDisk disk n0 e0 data) j = slotBlocks disk j := by
  have hfbs2 : ∀ b ∈ fbsOf disk data, 2 ≤ b := fun b hb => (mem_find_free_blocks hb).1
  have hent : dirEntry (finalDisk disk n0 e0 data) j = dirEntry disk j := by
    unfold finalDisk
    rw [dirEntry_appliedEntries_of_not_mem]
    · exact dirEntry_congr _ (fun t ht =>
        writeDataBlocksAux_dir _ _ _ _ _ hfbs2 (slotOff_add_lt_data hj ht))
    · intro p hp he
      apply hnot
      rw [← he, ← plannedEntries_fst (padTo n0 8) (padTo e0 3) (recordsOf data)
        (groupCount (fbsOf disk data).length) (freeSlots disk) (fbsOf disk data) 0 rfl hg]
      exact List.mem_map_of_mem Prod.fst hp
  unfold slotBlocks
  rw [hent]

/-- Claim **C5**: after any sequence of successful `add_file` calls starting from a
fresh image, the block numbers referenced across all occupied directory
entries contain no duplicates and none below 2 (blocks 0 and 1 are never
referenced). -/
theorem claim_C5 (dk : Disk) (h : Reachable dk) :
    (usedBlocksList dk).Nodup ∧ ∀ b ∈ usedBlocksList dk, 2 ≤ b := by
  induction h with
  | blank =>
    rw [usedBlocksList_blank]
    exact ⟨List.nodup_nil, by simp⟩
  | step dk n e d dk' _ hadd ih =>
    obtain ⟨hbn, hg, heq⟩ := add_file_ok_inv dk n e d dk' hadd
    subst heq
    obtain ⟨ihnd, ihge⟩ := ih
    obtain ⟨ihnd1, ihdisj⟩ := nodup_flatMap_inv (List.range DIR_ENTRIES) ihnd
    have hfbs_nd : (fbsOf dk d).Nodup := find_free_blocks_nodup dk _
    have hfbs2 : ∀ b ∈ fbsOf dk d, 2 ≤ b := fun b hb => (mem_find_free_blocks hb).1
    have hfbs_unused : ∀ b ∈ fbsOf dk d, b ∉ usedBlocksList dk :=
      fun b hb => (mem_find_free_blocks hb).2.2
    have hclaim_idx : ∀ i, i ∈ (freeSlots dk).take (groupCount (fbsOf dk d).length) →
        ∃ t, t < groupCount (fbsOf dk d).length ∧ t < (freeSlots dk).length ∧
          (freeSlots dk)[t]? = some i := by
      intro i hi
      obtain ⟨t, ht', hti⟩ := List.mem_iff_getElem.1 hi
      rw [List.getElem_take] at hti
      have htG : t < groupCount (fbsOf dk d).length := by
        simp only [List.length_take] at ht'
        omega
      have htF : t < (freeSlots dk).length := lt_of_lt_of_le htG hg
      exact ⟨t, htG, htF, by rw [List.getElem?_eq_getElem htF, hti]⟩
    constructor
    · show ((List.range DIR_ENTRIES).flatMap
        (fun i => slotBlocks (finalDisk dk n e d) i)).Nodup
      apply nodup_flatMap_of (List.range DIR_ENTRIES) (List.nodup_range _)
      · intro i hi
        by_cases hcl : i ∈ (freeSlots dk).take (groupCount (fbsOf dk d).length)
        · obtain ⟨t, htG, htF, hti⟩ := hclaim_idx i hcl
          rw [List.getElem?_eq_getElem htF] at hti
          have hti' : (freeSlots dk)[t] = i := Option.some.inj hti
          rw [← hti', final_slotBlocks_claimed dk n e d hg t htG htF]
          exact ((List.take_sublist _ _).trans (List.drop_sublist _ _)).nodup hfbs_nd
        · rw [final_slotBlocks_unclaimed dk n e d hg i (List.mem_range.1 hi) hcl]
          exact ihnd1 i hi
      · intro i hi j hj hij
        by_cases hci : i ∈ (freeSlots dk).take (groupCount (fbsOf dk d).length) <;>
          by_cases hcj : j ∈ (freeSlots dk).take (groupCount (fbsOf dk d).length)
        · obtain ⟨t, htG, htF, hti⟩ := hclaim_idx i hci
          obtain ⟨t', htG', htF', htj⟩ := hclaim_idx j hcj
          rw [List.getElem?_eq_getElem htF] at hti
          rw [List.getElem?_eq_getElem htF'] at htj
          have hti' : (freeSlots dk)[t] = i := Option.some.inj hti
          have htj' : (freeSlots dk)[t'] = j := Option.some.inj htj
          have htt : t ≠ t' := fun he => hij (hti'.symm.trans (he ▸ htj'))
          rw [← hti', ← htj', final_slotBlocks_claimed dk n e d hg t htG htF,
            final_slotBlocks_claimed dk n e d hg t' htG' htF']
          exact group_disjoint hfbs_nd htt
        · obtain ⟨t, htG, htF, hti⟩ := hclaim_idx i hci
          rw [List.getElem?_eq_getElem htF] at hti
          have hti' : (freeSlots dk)[t] = i := Option.some.inj hti
          rw [← hti', final_slotBlocks_claimed dk n e d hg t htG htF,
            final_slotBlocks_unclaimed dk n e d hg j (List.mem_range.1 hj) hcj]
          intro y hy hyj
          exact hfbs_unused y (List.mem_of_mem_drop (List.mem_of_mem_take hy))
            (List.mem_flatMap.2 ⟨j, hj, hyj⟩)
        · obtain ⟨t, htG, htF, htj⟩ := hclaim_idx j hcj
          rw [List.getElem?_eq_getElem htF] at htj
          have htj' : (freeSlots dk)[t] = j := Option.some.inj htj
          rw [← htj', final_slotBlocks_claimed dk n e d hg t htG htF,
            final_slotBlocks_unclaimed dk n e d hg i (List.mem_range.1 hi) hci]
          intro y hy hyj
          exact hfbs_unused y (List.mem_of_mem_drop (List.mem_of_mem_take hyj))
            (List.mem_flatMap.2 ⟨i, hi, hy⟩)
        · rw [final_slotBlocks_unclaimed dk n e d hg i (List.mem_range.1 hi) hci,
            final_slotBlocks_unclaimed dk n e d hg j (List.mem_range.1 hj) hcj]
          exact ihdisj i hi j hj hij
    · intro b hb
      have hb' : ∃ i ∈ List.range DIR_ENTRIES,
          b ∈ slotBlocks (finalDisk dk n e d) i := List.mem_flatMap.1 hb
      obtain ⟨i, hi, hbi⟩ := hb'
      by_cases hcl : i ∈ (freeSlots dk).take (groupCount (fbsOf dk d).length)
      · obtain ⟨t, htG, htF, hti⟩ := hclaim_idx i hcl
        rw [List.getElem?_eq_getElem htF] at hti
        have hti' : (freeSlots dk)[t] = i := Option.some.inj hti
        rw [← hti', final_slotBlocks_claimed dk n e d hg t htG htF] at hbi
        exact hfbs2 b (List.mem_of_mem_drop (List.mem_of_mem_take hbi))
      · rw [final_slotBlocks_unclaimed dk n e d hg i (List.mem_range.1 hi) hcl] at hbi
        exact ihge b (List.mem_flatMap.2 ⟨i, hi, hbi⟩)

theorem claim_C5_witness :
    (usedBlocksList create_disk).Nodup ∧ ∀ b ∈ usedBlocksList create_disk, 2 ≤ b :=
  claim_C5 create_disk Reachable.blank

end CpmDisk
